import Mathlib

/-!
Shallow embedding of the Android binder IPC driver
(`drivers/staging/android/binder.c`, goldfish kernel) and proofs about it.

Each definition translates the C function named in its doc comment.  Machine
integers of the C code are modelled as `Nat` (for sizes, descriptors and
counters that the code keeps non-negative) or `Int` (for reference counts,
where possible underflow is part of the property under study).  Kernel lists
are modelled as Lean lists (head = front of the `list_head`), red-black trees
as sorted lists or `find?`-style lookups.
-/

namespace Binder

/-! ## Thread pool (binder_thread looper state, binder_thread_write / read) -/

/-- The looper state bits of a `binder_thread` (enum at binder.c:525-543). -/
structure LooperState where
  registered : Bool
  entered : Bool
  exited : Bool
  invalid : Bool
deriving Repr, DecidableEq

/-- The thread-pool counters of a `binder_proc` used by the looper commands
and the end-of-read spawn decision. -/
structure ThreadPoolProc where
  requested_threads : Nat
  requested_threads_started : Nat
  max_threads : Nat
  ready_threads : Nat
deriving Repr, DecidableEq

/-- `BC_REGISTER_LOOPER` handling in `binder_thread_write` (binder.c:2265-2286).
If the thread already entered the loop, or no spawn was requested, the thread
is marked invalid; otherwise the proc counters are updated.  The REGISTERED
bit is set unconditionally afterwards, exactly as in the C code. -/
def bcRegisterLooper (p : ThreadPoolProc) (looper : LooperState) :
    ThreadPoolProc × LooperState :=
  let pl :=
    if looper.entered then
      (p, { looper with invalid := true })
    else if p.requested_threads = 0 then
      (p, { looper with invalid := true })
    else
      ({ p with requested_threads := p.requested_threads - 1,
                requested_threads_started := p.requested_threads_started + 1 },
       looper)
  (pl.1, { pl.2 with registered := true })

/-- `BC_ENTER_LOOPER` handling in `binder_thread_write` (binder.c:2287-2298).
A thread that already registered is marked invalid; the ENTERED bit is set
unconditionally. -/
def bcEnterLooper (looper : LooperState) : LooperState :=
  let looper := if looper.registered then { looper with invalid := true } else looper
  { looper with entered := true }

/-- The end-of-read `BR_SPAWN_LOOPER` decision of `binder_thread_read`
(binder.c:2748-2759): emit the spawn request and bump `requested_threads`
iff `requested_threads + ready_threads == 0`,
`requested_threads_started < max_threads`, and the reading thread has the
REGISTERED or ENTERED looper bit.  Returns (emitted, updated proc). -/
def readSpawnDecision (p : ThreadPoolProc) (looper : LooperState) :
    Bool × ThreadPoolProc :=
  if p.requested_threads + p.ready_threads = 0 ∧
     p.requested_threads_started < p.max_threads ∧
     (looper.registered = true ∨ looper.entered = true) then
    (true, { p with requested_threads := p.requested_threads + 1 })
  else
    (false, p)

/-! ## Per-node async transaction serialization (binder.c:1941-1955, 2242-2250) -/

/-- State of one target node's async machinery, together with the queues that
the two async code paths touch.  `inflight` is bookkeeping (not a field of the
C structs): the number of async transactions of this node that have been
dispatched to a todo queue (or delivered) and whose buffer has not been freed
yet. -/
structure AsyncState where
  has_async_transaction : Bool
  async_todo : List Nat
  proc_todo : List Nat
  thread_todo : List Nat
  inflight : Nat
deriving Repr, DecidableEq

/-- The async arm of `binder_transaction`'s enqueue step (binder.c:1941-1955):
if the target node already has an async transaction in flight, the work item
is appended to `node->async_todo` and `target_wait` is set to NULL (so nobody
is woken); otherwise `has_async_transaction` is set and the item goes to the
target proc's todo, whose wait queue is woken.  Returns (state, woke). -/
def asyncTransactionEnqueue (s : AsyncState) (w : Nat) : AsyncState × Bool :=
  if s.has_async_transaction then
    ({ s with async_todo := s.async_todo ++ [w] }, false)
  else
    ({ s with has_async_transaction := true,
              proc_todo := s.proc_todo ++ [w],
              inflight := s.inflight + 1 }, true)

/-- The async arm of `BC_FREE_BUFFER` handling in `binder_thread_write`
(binder.c:2242-2248), for a freed buffer with `async_transaction` set and a
target node (the code asserts `has_async_transaction` with a BUG_ON):
if `node->async_todo` is empty the flag is cleared, otherwise its first item
is moved to the tail of the freeing thread's todo (`list_move_tail`) and the
flag stays set. -/
def freeBufferAsyncStep (s : AsyncState) : AsyncState :=
  match s.async_todo with
  | [] => { s with has_async_transaction := false,
                   inflight := s.inflight - 1 }
  | x :: rest => { s with async_todo := rest,
                          thread_todo := s.thread_todo ++ [x] }

/-- Reachable async states of a node: start with no async traffic, then any
interleaving of async sends and frees of delivered async buffers (a free can
only happen while the flag is set; the code's BUG_ON documents this). -/
inductive AsyncReachable : AsyncState → Prop
  | init : AsyncReachable ⟨false, [], [], [], 0⟩
  | send (s : AsyncState) (w : Nat) : AsyncReachable s →
      AsyncReachable (asyncTransactionEnqueue s w).1
  | free (s : AsyncState) : AsyncReachable s → s.has_async_transaction = true →
      AsyncReachable (freeBufferAsyncStep s)

/-! ## Reference descriptor assignment (binder_get_ref_for_node, binder.c:1374-1438) -/

/-- One reference of a process: process-local descriptor plus target node id. -/
structure RefEntry where
  desc : Nat
  nodeId : Nat
deriving Repr, DecidableEq

/-- The descriptor scan loop of `binder_get_ref_for_node` (binder.c:1403-1409):
walk existing descriptors in ascending `refs_by_desc` order starting from
candidate 0 (context manager) or 1; stop as soon as an existing descriptor
exceeds the candidate, otherwise replace the candidate by that descriptor + 1. -/
def descScan : List Nat → Nat → Nat
  | [], cand => cand
  | d :: rest, cand => if cand < d then cand else descScan rest (d + 1)

/-- Ordered insertion into the `refs_by_desc` table (kept sorted by descriptor,
as the red-black tree is). -/
def insertByDesc (r : RefEntry) : List RefEntry → List RefEntry
  | [] => [r]
  | x :: xs => if r.desc < x.desc then r :: x :: xs else x :: insertByDesc r xs

/-- `binder_get_ref_for_node` (binder.c:1374-1438) on the model table: return
the existing reference of `proc` for this node if there is one; otherwise
create a reference whose descriptor is computed by the scan loop (starting at
0 for the context-manager node, else 1) and insert it into the
descriptor-sorted table.  Returns (the reference, the updated table). -/
def binder_get_ref_for_node (refs : List RefEntry) (nodeId : Nat)
    (isCtxMgr : Bool) : RefEntry × List RefEntry :=
  match refs.find? (fun r => r.nodeId = nodeId) with
  | some r => (r, refs)
  | none =>
    let d := descScan (refs.map RefEntry.desc) (if isCtxMgr then 0 else 1)
    let newRef : RefEntry := ⟨d, nodeId⟩
    (newRef, insertByDesc newRef refs)

/-- `binder_delete_ref` (binder.c:1440-1464) restricted to its effect on the
descriptor table: the reference is unlinked, all other entries are untouched. -/
def binder_delete_ref_table (refs : List RefEntry) (desc : Nat) : List RefEntry :=
  refs.filter (fun r => r.desc ≠ desc)

/-! ## Strong/weak reference count commands (binder_dec_ref, binder.c:1490-1521,
and the BC_RELEASE / BC_DECREFS arms of binder_thread_write, binder.c:2089-2143) -/

/-- The counters of a `binder_node` touched by `binder_dec_node` when called
from `binder_dec_ref` / `binder_delete_ref`.  `refs` is the length of the
node's `refs` hlist. -/
structure NodeCounters where
  internal_strong_refs : Int
  local_strong_refs : Int
  local_weak_refs : Int
  refs : Nat
deriving Repr, DecidableEq

/-- A reference object's own counters (`binder_ref.strong` / `.weak`). -/
structure RefCounters where
  strong : Int
  weak : Int
deriving Repr, DecidableEq

/-- The counter effect of `binder_dec_node` (binder.c:1312-1352).  The work
enqueueing and the node-destruction bookkeeping touch no counter of
`NodeCounters` except the implicit removal from the refs list, which
`binder_delete_ref` performs separately (`hlist_del`). -/
def binder_dec_node_counters (n : NodeCounters) (strong internal : Bool) :
    NodeCounters :=
  if strong then
    if internal then { n with internal_strong_refs := n.internal_strong_refs - 1 }
    else { n with local_strong_refs := n.local_strong_refs - 1 }
  else
    if internal then n
    else { n with local_weak_refs := n.local_weak_refs - 1 }

/-- `binder_delete_ref` (binder.c:1440-1464) counter effects: if the reference
still holds a strong count, drop the node's internal strong count; unlink the
reference from the node's refs list; the trailing weak `binder_dec_node` call
(internal) touches no counter. -/
def binder_delete_ref_counters (r : RefCounters) (n : NodeCounters) :
    NodeCounters :=
  let n := if r.strong ≠ 0 then binder_dec_node_counters n true true else n
  { n with refs := n.refs - 1 }

/-- `binder_dec_ref` (binder.c:1490-1521).  Decrementing a zero count is a
user error (`-EINVAL`) and returns before touching any state.  Otherwise the
count drops; a strong 1→0 propagates to the node, and when both counts reach
0 the reference object is deleted (`none`). -/
def binder_dec_ref (r : RefCounters) (n : NodeCounters) (strong : Bool) :
    Except Unit (Option RefCounters × NodeCounters) :=
  if strong then
    if r.strong = 0 then .error ()
    else
      let r := { r with strong := r.strong - 1 }
      let n := if r.strong = 0 then binder_dec_node_counters n true true else n
      if r.strong = 0 ∧ r.weak = 0 then .ok (none, binder_delete_ref_counters r n)
      else .ok (some r, n)
  else
    if r.weak = 0 then .error ()
    else
      let r := { r with weak := r.weak - 1 }
      if r.strong = 0 ∧ r.weak = 0 then .ok (none, binder_delete_ref_counters r n)
      else .ok (some r, n)

/-- The decrement commands of the `BC_INCREFS .. BC_DECREFS` arm of
`binder_thread_write` (binder.c:2089-2143). -/
inductive RefDecCmd
  | bcRelease
  | bcDecrefs
deriving Repr, DecidableEq

/-- The `BC_RELEASE` / `BC_DECREFS` dispatch of `binder_thread_write`
(binder.c:2129-2137): run `binder_dec_ref`; a user error leaves the reference
object and every counter unchanged (`binder_user_error` only logs and touches
the global stop flag). -/
def handleRefDecCmd (cmd : RefDecCmd) (r : RefCounters) (n : NodeCounters) :
    Option RefCounters × NodeCounters :=
  match cmd with
  | .bcRelease =>
    match binder_dec_ref r n true with
    | .ok out => out
    | .error _ => (some r, n)
  | .bcDecrefs =>
    match binder_dec_ref r n false with
    | .ok out => out
    | .error _ => (some r, n)

/-! ## Buffer arena (binder_alloc_buf / binder_free_buf, binder.c:1004-1216) -/

namespace Alloc

/-- Pointer size of the modelled machine (`sizeof(void *)`). -/
def ptrSize : Nat := 8

/-- `sizeof(struct binder_buffer)` on the modelled 64-bit machine:
two list pointers, three rb-node words, one word of bitfields, and the
transaction, target_node, data_size, offsets_size words (binder.c:351-390). -/
def hdrSize : Nat := 80

/-- The kernel `ALIGN(x, sizeof(void *))` macro: round up to pointer size. -/
def ALIGN (n : Nat) : Nat := (n + ptrSize - 1) / ptrSize * ptrSize

/-- A `struct binder_buffer` header as the arena bookkeeping sees it.  `addr`
is the offset of the header inside the arena; the payload (`buffer->data`)
starts at `addr + hdrSize` and runs to the next header (or the arena end). -/
structure BinderBuffer where
  addr : Nat
  free : Bool
  data_size : Nat
  offsets_size : Nat
  async_transaction : Bool
deriving Repr, DecidableEq

/-- A process's arena: total size, the address-ordered buffer list
(`proc->buffers`; the free/allocated rb-trees are the sublists selected by
the `free` bit), and the async quota (`proc->free_async_space`). -/
structure AllocState where
  buffer_size : Nat
  buffers : List BinderBuffer
  free_async_space : Nat
deriving Repr, DecidableEq

/-- `binder_buffer_size` (binder.c:815-823): distance from this buffer's data
start to the next header in address order, or to the arena end for the last
buffer. -/
def binder_buffer_size (s : AllocState) (b : BinderBuffer) : Nat :=
  match s.buffers.find? (fun c => b.addr < c.addr) with
  | some next => next.addr - (b.addr + hdrSize)
  | none => s.buffer_size - (b.addr + hdrSize)

/-- Pick an element of minimal measure `f` (the first such in list order). -/
def pickMinBy (f : BinderBuffer → Nat) (l : List BinderBuffer) :
    Option BinderBuffer :=
  l.foldl
    (fun acc b =>
      match acc with
      | none => some b
      | some a => if f b < f a then some b else some a)
    none

/-- The best-fit search of `binder_alloc_buf` (binder.c:1038-1052) over the
size-keyed free tree: a free buffer of minimal `binder_buffer_size` among
those of size at least `size` (`none` when there is no such buffer). -/
def bestFit (s : AllocState) (size : Nat) : Option BinderBuffer :=
  pickMinBy (binder_buffer_size s)
    (s.buffers.filter (fun b => b.free && decide (size ≤ binder_buffer_size s b)))

/-- Replace the buffer at `addr` in the address-ordered list by the given
buffers (used for allocation and for the `list_add` of a split tail). -/
def replaceBuffer (bs : List BinderBuffer) (addr : Nat)
    (repl : List BinderBuffer) : List BinderBuffer :=
  match bs with
  | [] => []
  | x :: xs => if x.addr = addr then repl ++ xs else x :: replaceBuffer xs addr repl

/-- `binder_alloc_buf` (binder.c:1004-1106).  Returns the updated arena and
the address of the allocated buffer, or `none` on failure.  The lazy page
backing (`binder_update_page_range`) always succeeds in the model; the
overflow test at binder.c:1024 is unnecessary over `Nat`. -/
def binder_alloc_buf (s : AllocState) (data_size offsets_size : Nat)
    (is_async : Bool) : Option (AllocState × Nat) :=
  let size := ALIGN data_size + ALIGN offsets_size
  if is_async ∧ s.free_async_space < size + hdrSize then none
  else
    match bestFit s size with
    | none => none
    | some buffer =>
      let orig_size := binder_buffer_size s buffer
      let buffer_size :=
        if orig_size = size then size
        else if size + hdrSize + 4 ≥ orig_size then size
        else size + hdrSize
      let alloc : BinderBuffer :=
        { buffer with free := false, data_size := data_size,
                      offsets_size := offsets_size,
                      async_transaction := is_async }
      let buffers :=
        if buffer_size ≠ size then
          replaceBuffer s.buffers buffer.addr
            [alloc,
             { addr := buffer.addr + hdrSize + size, free := true,
               data_size := 0, offsets_size := 0, async_transaction := false }]
        else
          replaceBuffer s.buffers buffer.addr [alloc]
      let fas :=
        if is_async then s.free_async_space - (size + hdrSize)
        else s.free_async_space
      some ({ s with buffers := buffers, free_async_space := fas }, buffer.addr)

/-- Address-ordered successor of the buffer at `addr`. -/
def nextBuffer (s : AllocState) (addr : Nat) : Option BinderBuffer :=
  s.buffers.find? (fun c => addr < c.addr)

/-- Address-ordered predecessor of the buffer at `addr`. -/
def prevBuffer (s : AllocState) (addr : Nat) : Option BinderBuffer :=
  (s.buffers.filter (fun c => c.addr < addr)).getLast?

/-- `binder_free_buf` (binder.c:1165-1216): restore the async quota if the
buffer was async, mark the buffer free, and coalesce with free neighbours by
deleting their headers (sizes being implicit distances, removing a header is
the coalescing).  Page unmapping is not modelled.  Freeing an unknown or
already-free buffer is a no-op here (the C code asserts against it). -/
def binder_free_buf (s : AllocState) (addr : Nat) : AllocState :=
  match s.buffers.find? (fun b => b.addr = addr) with
  | none => s
  | some buffer =>
    if buffer.free then s
    else
      let size := ALIGN buffer.data_size + ALIGN buffer.offsets_size
      let fas :=
        if buffer.async_transaction then s.free_async_space + (size + hdrSize)
        else s.free_async_space
      let bs := s.buffers.map
        (fun b => if b.addr = addr then { b with free := true } else b)
      let bs :=
        match nextBuffer s addr with
        | some nxt => if nxt.free then bs.filter (fun b => b.addr ≠ nxt.addr) else bs
        | none => bs
      let bs :=
        match prevBuffer s addr with
        | some prv => if prv.free then bs.filter (fun b => b.addr ≠ addr) else bs
        | none => bs
      { s with buffers := bs, free_async_space := fas }

/-- The arena state set up by `binder_mmap` (binder.c:3099-3114): one free
buffer spanning the arena and `free_async_space = buffer_size / 2`. -/
def binder_mmap_init (arena : Nat) : AllocState :=
  { buffer_size := arena,
    buffers := [{ addr := 0, free := true, data_size := 0, offsets_size := 0,
                  async_transaction := false }],
    free_async_space := arena / 2 }

/-- The async-quota charge of one buffer: `ALIGN(data_size) +
ALIGN(offsets_size) + hdrSize` if it is an allocated async buffer (what
`binder_alloc_buf` subtracted for it), else 0. -/
def bufCharge (b : BinderBuffer) : Nat :=
  if !b.free && b.async_transaction then
    ALIGN b.data_size + ALIGN b.offsets_size + hdrSize
  else 0

/-- Total quota charge of the currently allocated async buffers. -/
def asyncAllocatedSpace (s : AllocState) : Nat :=
  (s.buffers.map bufCharge).sum

/-- Arena states reachable from `binder_mmap` by allocations and frees (the
mapped region is at least one page, so it holds at least one header). -/
inductive AllocReachable : AllocState → Prop
  | init (arena : Nat) : hdrSize ≤ arena → AllocReachable (binder_mmap_init arena)
  | alloc (s s' : AllocState) (d o a : Nat) (is_async : Bool) :
      AllocReachable s → binder_alloc_buf s d o is_async = some (s', a) →
      AllocReachable s'
  | free (s : AllocState) (addr : Nat) :
      AllocReachable s → AllocReachable (binder_free_buf s addr)

/-- The arena bookkeeping invariant: the async quota plus the charge of the
allocated async buffers is exactly half the arena; headers sit at least a
header apart in address order; and every header fits inside the arena. -/
def AllocInv (s : AllocState) : Prop :=
  s.free_async_space + asyncAllocatedSpace s = s.buffer_size / 2 ∧
  s.buffers.Pairwise (fun a b => a.addr + hdrSize ≤ b.addr) ∧
  ∀ b ∈ s.buffers, b.addr + hdrSize ≤ s.buffer_size

end Alloc

/-! ## Transaction target resolution (binder_transaction, binder.c:1622-1718) -/

namespace Resolve

/-- The driver-to-user return codes involved in target resolution
(`enum BinderDriverReturnProtocol`). -/
inductive BrCode
  | BR_OK
  | BR_TRANSACTION_COMPLETE
  | BR_DEAD_REPLY
  | BR_FAILED_REPLY
deriving Repr, DecidableEq

/-- The goto labels of `binder_transaction`'s resolution failures; each
records into `return_error` the `BrCode` given by `returnErrorOf`. -/
inductive ResolveError
  | errEmptyCallStack
  | errBadCallStack
  | errDeadBinder
  | errBadTargetStack
  | errInvalidTargetHandle
  | errNoContextMgrNode
deriving Repr, DecidableEq

/-- The `return_error` value assigned at each failure site
(binder.c:1628, 1641, 1648, 1659, 1673, 1680). -/
def returnErrorOf : ResolveError → BrCode
  | .errEmptyCallStack => .BR_FAILED_REPLY
  | .errBadCallStack => .BR_FAILED_REPLY
  | .errDeadBinder => .BR_DEAD_REPLY
  | .errBadTargetStack => .BR_FAILED_REPLY
  | .errInvalidTargetHandle => .BR_FAILED_REPLY
  | .errNoContextMgrNode => .BR_DEAD_REPLY

/-- A node as the resolution path sees it: identity plus owning process
(`node->proc`, `none` once the owner died). -/
structure NodeOwner where
  nodeId : Nat
  owner : Option Nat
deriving Repr, DecidableEq

/-- A reference of the sending process: descriptor plus target node. -/
structure RefToNode where
  desc : Nat
  node : NodeOwner
deriving Repr, DecidableEq

/-- Call-target resolution (binder.c:1665-1689): handle 0 is the context
manager; otherwise the handle is looked up in the sender's references.  A
missing reference fails at `err_invalid_target_handle`; a target node whose
owning process is gone fails at `err_dead_binder` with `BR_DEAD_REPLY`. -/
def resolveCallTarget (refs : List RefToNode) (ctxMgrNode : Option NodeOwner)
    (handle : Nat) : Except ResolveError (NodeOwner × Nat) :=
  if handle ≠ 0 then
    match refs.find? (fun r => r.desc = handle) with
    | none => .error .errInvalidTargetHandle
    | some r =>
      match r.node.owner with
      | none => .error .errDeadBinder
      | some p => .ok (r.node, p)
  else
    match ctxMgrNode with
    | none => .error .errNoContextMgrNode
    | some n =>
      match n.owner with
      | none => .error .errDeadBinder
      | some p => .ok (n, p)

/-- A transaction frame as the reply path inspects it: identity, the thread
currently serving it (`t->to_thread`) and the caller (`t->from`, `none` once
the caller thread exited). -/
structure ReplyFrame where
  fid : Nat
  to_thread : Option Nat
  from_thread : Option Nat
deriving Repr, DecidableEq

/-- Reply-target resolution (binder.c:1622-1664): the top of the replying
thread's transaction stack must exist and be served by this thread; its
caller (`in_reply_to->from`) is the target thread, and if the caller is gone
the reply fails at `err_dead_binder` with `BR_DEAD_REPLY`.  The final check
requires the caller's own stack top to be the same frame. -/
def resolveReplyTarget (selfTid : Nat) (stack : List ReplyFrame)
    (stackOf : Nat → List ReplyFrame) : Except ResolveError Nat :=
  match stack with
  | [] => .error .errEmptyCallStack
  | in_reply_to :: _ =>
    if in_reply_to.to_thread ≠ some selfTid then .error .errBadCallStack
    else
      match in_reply_to.from_thread with
      | none => .error .errDeadBinder
      | some caller =>
        if (stackOf caller).head? ≠ some in_reply_to then .error .errBadTargetStack
        else .ok caller

end Resolve

/-! ## Death notification lifecycle (binder.c:2307-2442, 2642-2673, 3253-3263) -/

namespace Death

/-- The work-item types a death subscription's work item can carry. -/
inductive WorkType
  | deadBinder
  | deadBinderAndClear
  | clearNotification
deriving Repr, DecidableEq

/-- Where the subscription's work item currently is: unlinked
(`list_empty(&death->work.entry)`), on a todo queue (thread or process), on
`proc->delivered_death`, or freed after the clear-done was read. -/
inductive Loc
  | unlinked
  | onTodo
  | onDelivered
  | freed
deriving Repr, DecidableEq

/-- The lifecycle state of one death subscription (one cookie).  `kind` is
meaningful only while the work item is linked.  `deadEmitted` and
`clearDoneEmitted` count the `BR_DEAD_BINDER` /
`BR_CLEAR_DEATH_NOTIFICATION_DONE` records read for this cookie. -/
structure DeathState where
  refDeathSet : Bool
  nodeDead : Bool
  kind : WorkType
  loc : Loc
  deadEmitted : Nat
  clearDoneEmitted : Nat
deriving Repr, DecidableEq

/-- The operations that touch a subscription after registration. -/
inductive DeathOp
  | die
  | deliver
  | clear
  | ack
deriving Repr, DecidableEq

/-- One step of the subscription lifecycle; `none` when the operation's guard
does not hold (its C path is unreachable or a rejected user error).
`die`: owner teardown (binder.c:3255-3262) queues a DEAD_BINDER work item
  (the item must be unlinked: the code has a BUG elsewise).
`deliver`: `binder_thread_read` surfaces the linked item (binder.c:2642-2673):
  CLEAR items emit the clear-done and are freed; DEAD / DEAD_AND_CLEAR items
  emit `BR_DEAD_BINDER` and move to `delivered_death`.
`clear`: `BC_CLEAR_DEATH_NOTIFICATION` (binder.c:2372-2405): detach from the
  ref; if unlinked, queue as CLEAR; else promote the linked DEAD item to
  DEAD_AND_CLEAR without queueing anything new.
`ack`: `BC_DEAD_BINDER_DONE` (binder.c:2407-2442): unlink from
  `delivered_death`; a DEAD_AND_CLEAR item is requeued as CLEAR. -/
def deathStep (s : DeathState) (op : DeathOp) : Option DeathState :=
  match op with
  | .die =>
    if s.refDeathSet ∧ ¬s.nodeDead ∧ s.loc = .unlinked then
      some { s with nodeDead := true, kind := .deadBinder, loc := .onTodo }
    else none
  | .deliver =>
    if s.loc = .onTodo then
      if s.kind = .clearNotification then
        some { s with loc := .freed,
                      clearDoneEmitted := s.clearDoneEmitted + 1 }
      else
        some { s with loc := .onDelivered, deadEmitted := s.deadEmitted + 1 }
    else none
  | .clear =>
    if s.refDeathSet then
      if s.loc = .unlinked then
        some { s with refDeathSet := false, kind := .clearNotification,
                      loc := .onTodo }
      else if s.kind = .deadBinder then
        some { s with refDeathSet := false, kind := .deadBinderAndClear }
      else none
    else none
  | .ack =>
    if s.loc = .onDelivered then
      if s.kind = .deadBinderAndClear then
        some { s with kind := .clearNotification, loc := .onTodo }
      else some { s with loc := .unlinked }
    else none

/-- Bookkeeping potential for the at-most-once property: the number of
`BR_DEAD_BINDER` records already read, plus one if a dead-binder work item
is currently queued for delivery. -/
def deadPotential (s : DeathState) : Nat :=
  s.deadEmitted + (if s.loc = .onTodo ∧ s.kind ≠ .clearNotification then 1 else 0)

/-- States of one subscription reachable from its registration
(`BC_REQUEST_DEATH_NOTIFICATION`, binder.c:2341-2371): on a live node the
item starts unlinked; on an already-dead node a DEAD_BINDER item is queued
immediately. -/
inductive DeathReachable : DeathState → Prop
  | registerLive : DeathReachable ⟨true, false, .deadBinder, .unlinked, 0, 0⟩
  | registerDead : DeathReachable ⟨true, true, .deadBinder, .onTodo, 0, 0⟩
  | step (s s' : DeathState) (op : DeathOp) :
      DeathReachable s → deathStep s op = some s' → DeathReachable s'

end Death

/-! ## Object translation and failure unwind (binder_transaction,
binder.c:1779-2000, and binder_transaction_buffer_release, binder.c:2002-2069)

This model covers the stage of `binder_transaction` that runs after target
resolution and buffer allocation (modelled separately above): the
object-table walk that translates each flattened object in place, and the
error path that unwinds it.  Work-item queue contents are tracked only
through each node's `workQueued` bit (whether `node->work.entry` is linked);
death subscriptions, priorities of threads, and the user-space byte payload
are outside this model. -/

namespace Trans

open Resolve (BrCode)

/-- A `struct binder_node` as the translation walk uses it.  `nid` stands for
the node's address (its identity); `ownerId` is `node->proc`. -/
structure Node where
  nid : Nat
  ownerId : Option Nat
  ptr : Nat
  cookie : Nat
  internal_strong_refs : Int
  local_strong_refs : Int
  local_weak_refs : Int
  has_strong_ref : Bool
  has_weak_ref : Bool
  workQueued : Bool
  min_priority : Nat
  accept_fds : Bool
deriving Repr, DecidableEq

/-- A `struct binder_ref`: owning process, descriptor, target node, counts. -/
structure Ref where
  procId : Nat
  desc : Nat
  nid : Nat
  strong : Int
  weak : Int
deriving Repr, DecidableEq

/-- The broker state the translation walk touches.  `senderFds` is the fd
table of the sending process (what `fget` can resolve); `targetFds` the
target's installed fds, `nextFd` the next descriptor
`task_get_unused_fd_flags` hands out.  `transactionsAlive`,
`completionsAlive`, `buffersAlive` count the live transaction structs,
completion work items and allocated target-side buffers (the objects the
error path must free). -/
structure St where
  nodes : List Node
  refs : List Ref
  ctxMgr : Option Nat
  lastId : Nat
  senderFds : List Nat
  targetFds : List Nat
  nextFd : Nat
  transactionsAlive : Nat
  completionsAlive : Nat
  buffersAlive : Nat
deriving Repr, DecidableEq

/-- `binder_get_node` (binder.c:1218-1235): look up process `pid`'s node with
user pointer `ptr`. -/
def binder_get_node (s : St) (pid ptr : Nat) : Option Node :=
  s.nodes.find? (fun nd => nd.ownerId = some pid && nd.ptr = ptr)

/-- Node lookup by identity. -/
def getNodeById (s : St) (nid : Nat) : Option Node :=
  s.nodes.find? (fun nd => nd.nid = nid)

/-- Apply `f` to the node `nid`. -/
def updateNode (s : St) (nid : Nat) (f : Node → Node) : St :=
  { s with nodes := s.nodes.map (fun nd => if nd.nid = nid then f nd else nd) }

/-- Does any reference point at node `nid` (`!hlist_empty(&node->refs)`)? -/
def refsNonempty (s : St) (nid : Nat) : Bool :=
  s.refs.any (fun r => r.nid = nid)

/-- `binder_get_ref` (binder.c:1355-1372): process `pid`'s reference with
descriptor `desc`. -/
def binder_get_ref (s : St) (pid desc : Nat) : Option Ref :=
  s.refs.find? (fun r => r.procId = pid && r.desc = desc)

/-- Apply `f` to process `pid`'s reference `desc`. -/
def updateRef (s : St) (pid desc : Nat) (f : Ref → Ref) : St :=
  { s with refs :=
      s.refs.map (fun r => if r.procId = pid ∧ r.desc = desc then f r else r) }

/-- Ascending insertion (used to present a process's descriptors to the scan
loop in `refs_by_desc` order). -/
def insertAsc (n : Nat) : List Nat → List Nat
  | [] => [n]
  | x :: xs => if n ≤ x then n :: x :: xs else x :: insertAsc n xs

/-- Sort a list of descriptors ascending. -/
def sortNat (l : List Nat) : List Nat := l.foldr insertAsc []

/-- `binder_new_node` (binder.c:1237-1274): fresh node for process `pid`,
with zeroed counters and a fresh `debug_id`-style identity. -/
def binder_new_node (s : St) (pid ptr cookie : Nat) : St × Node :=
  let node : Node :=
    { nid := s.lastId + 1, ownerId := some pid, ptr := ptr, cookie := cookie,
      internal_strong_refs := 0, local_strong_refs := 0, local_weak_refs := 0,
      has_strong_ref := false, has_weak_ref := false, workQueued := false,
      min_priority := 0, accept_fds := false }
  ({ s with nodes := s.nodes ++ [node], lastId := s.lastId + 1 }, node)

/-- `binder_get_ref_for_node` (binder.c:1374-1438) for process `pid`:
existing reference, or a new one whose descriptor the scan loop picks
(see `descScan`). -/
def binder_get_ref_for_node_t (s : St) (pid nid : Nat) : St × Ref :=
  match s.refs.find? (fun r => r.procId = pid && r.nid = nid) with
  | some r => (s, r)
  | none =>
    let used := sortNat ((s.refs.filter (fun r => r.procId = pid)).map Ref.desc)
    let d := descScan used (if s.ctxMgr = some nid then 0 else 1)
    let r : Ref := { procId := pid, desc := d, nid := nid, strong := 0, weak := 0 }
    ({ s with refs := s.refs ++ [r], lastId := s.lastId + 1 }, r)

/-- `binder_inc_node` (binder.c:1276-1310).  Returns the updated state and
whether the call failed with `-EINVAL`.  `targetList` is whether a non-NULL
`target_list` was passed; queueing the node work item is recorded in
`workQueued`.  Note the C order: in the weak branch the `local_weak_refs`
increment happens before the possible `-EINVAL` return. -/
def binder_inc_node (s : St) (nid : Nat) (strong internal targetList : Bool) :
    St × Bool :=
  match getNodeById s nid with
  | none => (s, true)
  | some node =>
    if strong then
      if internal ∧ ¬targetList ∧ node.internal_strong_refs = 0 ∧
         ¬(s.ctxMgr = some nid ∧ node.has_strong_ref) then
        (s, true)
      else
        let s :=
          if internal then
            updateNode s nid (fun nd =>
              { nd with internal_strong_refs := nd.internal_strong_refs + 1 })
          else
            updateNode s nid (fun nd =>
              { nd with local_strong_refs := nd.local_strong_refs + 1 })
        if ¬node.has_strong_ref ∧ targetList then
          (updateNode s nid (fun nd => { nd with workQueued := true }), false)
        else (s, false)
    else
      let s :=
        if ¬internal then
          updateNode s nid (fun nd =>
            { nd with local_weak_refs := nd.local_weak_refs + 1 })
        else s
      if ¬node.has_weak_ref ∧ ¬node.workQueued then
        if ¬targetList then (s, true)
        else (updateNode s nid (fun nd => { nd with workQueued := true }), false)
      else (s, false)

/-- The second half of `binder_dec_node` (binder.c:1320-1351): after the
decrement, either return early, ask the owner to drop its user-space
reference (queue the node work item), or destroy a node nobody needs any
more. -/
def binder_dec_node_post (s : St) (nid : Nat) (strong : Bool) : St :=
  match getNodeById s nid with
  | none => s
  | some nd =>
    if strong ∧ (nd.local_strong_refs ≠ 0 ∨ nd.internal_strong_refs ≠ 0) then s
    else if ¬strong ∧ (nd.local_weak_refs ≠ 0 ∨ refsNonempty s nid) then s
    else if nd.ownerId ≠ none ∧ (nd.has_strong_ref ∨ nd.has_weak_ref) then
      if ¬nd.workQueued then
        updateNode s nid (fun x => { x with workQueued := true })
      else s
    else if ¬refsNonempty s nid ∧ nd.local_strong_refs = 0 ∧
            nd.local_weak_refs = 0 then
      { s with nodes := s.nodes.filter (fun x => x.nid ≠ nid) }
    else s

/-- `binder_dec_node` (binder.c:1312-1352): decrement the requested counter,
then the post-decrement phase above. -/
def binder_dec_node (s : St) (nid : Nat) (strong internal : Bool) : St :=
  match getNodeById s nid with
  | none => s
  | some _ =>
    binder_dec_node_post
      (if strong then
        if internal then
          updateNode s nid (fun nd =>
            { nd with internal_strong_refs := nd.internal_strong_refs - 1 })
        else
          updateNode s nid (fun nd =>
            { nd with local_strong_refs := nd.local_strong_refs - 1 })
      else
        if ¬internal then
          updateNode s nid (fun nd =>
            { nd with local_weak_refs := nd.local_weak_refs - 1 })
        else s) nid strong

/-- `binder_inc_ref` (binder.c:1466-1487): a 0→1 transition first increments
the target node (propagating a possible `-EINVAL`, in which case the
reference count is left untouched). -/
def binder_inc_ref (s : St) (pid desc : Nat) (strong targetList : Bool) :
    St × Bool :=
  match binder_get_ref s pid desc with
  | none => (s, true)
  | some ref =>
    if strong then
      if ref.strong = 0 then
        let (s, err) := binder_inc_node s ref.nid true true targetList
        if err then (s, true)
        else (updateRef s pid desc (fun r => { r with strong := r.strong + 1 }),
              false)
      else
        (updateRef s pid desc (fun r => { r with strong := r.strong + 1 }), false)
    else
      if ref.weak = 0 then
        let (s, err) := binder_inc_node s ref.nid false true targetList
        if err then (s, true)
        else (updateRef s pid desc (fun r => { r with weak := r.weak + 1 }),
              false)
      else
        (updateRef s pid desc (fun r => { r with weak := r.weak + 1 }), false)

/-- `binder_delete_ref` (binder.c:1440-1464) without the death-subscription
arm (death handling is modelled separately).  In the C code the reference is
first removed from the proc's two lookup trees, then — after the possible
strong decrement on the node — from the node's refs hlist; no lookup happens
in between, so the model drops the reference at the hlist_del point. -/
def binder_delete_ref_t (s : St) (pid desc : Nat) : St :=
  match binder_get_ref s pid desc with
  | none => s
  | some ref =>
    let s := if ref.strong ≠ 0 then binder_dec_node s ref.nid true true else s
    let remaining := s.refs.filter (fun r => ¬(r.procId = pid ∧ r.desc = desc))
    let s := { s with refs := remaining }
    binder_dec_node s ref.nid false true

/-- `binder_dec_ref` (binder.c:1490-1521) on the full state: decrementing a
zero count is a rejected user error (`true` in the second component) that
changes nothing; otherwise the count drops, a strong 1→0 propagates to the
node, and a reference at 0/0 is deleted. -/
def binder_dec_ref_t (s : St) (pid desc : Nat) (strong : Bool) : St × Bool :=
  match binder_get_ref s pid desc with
  | none => (s, true)
  | some ref =>
    if strong then
      if ref.strong = 0 then (s, true)
      else
        let ref' : Ref := { ref with strong := ref.strong - 1 }
        let s := updateRef s pid desc (fun r => { r with strong := r.strong - 1 })
        let s := if ref'.strong = 0 then binder_dec_node s ref.nid true true else s
        if ref'.strong = 0 ∧ ref'.weak = 0 then (binder_delete_ref_t s pid desc, false)
        else (s, false)
    else
      if ref.weak = 0 then (s, true)
      else
        let ref' : Ref := { ref with weak := ref.weak - 1 }
        let s := updateRef s pid desc (fun r => { r with weak := r.weak - 1 })
        if ref'.strong = 0 ∧ ref'.weak = 0 then (binder_delete_ref_t s pid desc, false)
        else (s, false)

/-- A `struct flat_binder_object` in a transaction payload.  `flags` is the
object's flag word (priority mask and `FLAT_BINDER_FLAG_ACCEPTS_FDS`);
`badObj` stands for an object with an unrecognized type tag
(the `default:` arm, binder.c:1925-1930). -/
inductive FlatObj
  | binderObj (strong : Bool) (ptr cookie flags : Nat)
  | handleObj (strong : Bool) (handle : Nat)
  | fdObj (fd : Nat)
  | badObj
deriving Repr, DecidableEq

/-- What one successful entry translation did to the target side (the calls
made at binder.c:1845, 1868, 1880 and 1918). -/
inductive TAction
  | incRefAct (desc : Nat) (strong : Bool)
  | incNodeAct (ptr : Nat) (strong : Bool)
  | installFdAct (fd : Nat)
deriving Repr, DecidableEq

/-- What one release step of the object-table walk does (the calls at
binder.c:2042, 2054 and 2061). -/
inductive RAction
  | decNodeAct (ptr : Nat) (strong : Bool)
  | decRefAct (desc : Nat) (strong : Bool)
  | closeFdAct (fd : Nat)
deriving Repr, DecidableEq

/-- The reverse-effect of a translation action: dec what was inc'd, close
what was installed. -/
def invAction : TAction → RAction
  | .incRefAct d strong => .decRefAct d strong
  | .incNodeAct p strong => .decNodeAct p strong
  | .installFdAct fd => .closeFdAct fd

/-- The parameters of the translation stage fixed by the earlier parts of
`binder_transaction`: sender and target process, whether this is a reply,
whether the replied-to transaction had `TF_ACCEPT_FDS`, and the resolved
target node (`none` for replies). -/
structure TParams where
  senderId : Nat
  targetId : Nat
  reply : Bool
  replyAcceptFds : Bool
  targetNode : Option Nat
deriving Repr, DecidableEq

/-- Translation of one flattened object (the `switch (fp->type)` at
binder.c:1813-1931).  On success: updated state, the header as rewritten in
the buffer, and the action performed.  On failure: `some BR_FAILED_REPLY`
for every site that assigns `return_error`, and `none` for the sender
cookie-mismatch path (binder.c:1827-1834), which jumps to the error labels
without assigning the uninitialized `return_error` variable. -/
def translate_entry (p : TParams) (s : St) : FlatObj →
    Except (Option BrCode) (St × FlatObj × TAction)
  | .binderObj strong ptr cookie flags =>
    let sn :=
      match binder_get_node s p.senderId ptr with
      | some node => (s, node)
      | none =>
        let (s, node) := binder_new_node s p.senderId ptr cookie
        (updateNode s node.nid (fun nd =>
           { nd with min_priority := flags % 256,
                     accept_fds := flags.testBit 8 }),
         { node with min_priority := flags % 256, accept_fds := flags.testBit 8 })
    if cookie ≠ sn.2.cookie then
      .error none
    else
      let sr := binder_get_ref_for_node_t sn.1 p.targetId sn.2.nid
      .ok ((binder_inc_ref sr.1 p.targetId sr.2.desc strong true).1,
           .handleObj strong sr.2.desc, .incRefAct sr.2.desc strong)
  | .handleObj strong handle =>
    match binder_get_ref s p.senderId handle with
    | none => .error (some .BR_FAILED_REPLY)
    | some ref =>
      match getNodeById s ref.nid with
      | none => .error (some .BR_FAILED_REPLY)
      | some node =>
        if node.ownerId = some p.targetId then
          .ok ((binder_inc_node s node.nid strong false false).1,
               .binderObj strong node.ptr node.cookie 0,
               .incNodeAct node.ptr strong)
        else
          let sr := binder_get_ref_for_node_t s p.targetId ref.nid
          .ok ((binder_inc_ref sr.1 p.targetId sr.2.desc strong false).1,
               .handleObj strong sr.2.desc, .incRefAct sr.2.desc strong)
  | .fdObj fd =>
    let allowed :=
      if p.reply then p.replyAcceptFds
      else
        match p.targetNode with
        | some nid => (getNodeById s nid).elim false Node.accept_fds
        | none => false
    if ¬allowed then .error (some .BR_FAILED_REPLY)
    else if ¬s.senderFds.contains fd then .error (some .BR_FAILED_REPLY)
    else
      .ok ({ s with targetFds := s.targetFds ++ [s.nextFd],
                    nextFd := s.nextFd + 1 },
           .fdObj s.nextFd, .installFdAct s.nextFd)
  | .badObj => .error (some .BR_FAILED_REPLY)

/-- Result of the object-table walk: every entry translated, or a failure at
index `k` with the `k` already-rewritten entries, the actions they performed,
and the `return_error` the failing case assigns (`none`: left
uninitialized). -/
inductive LoopResult
  | ok (s : St) (rewritten : List FlatObj) (acts : List TAction)
  | fail (s : St) (k : Nat) (rewritten : List FlatObj) (acts : List TAction)
      (err : Option BrCode)
deriving Repr

/-- The translation loop (binder.c:1801-1932), entry by entry. -/
def translateLoop (p : TParams) : St → List FlatObj → LoopResult
  | s, [] => .ok s [] []
  | s, fp :: rest =>
    match translate_entry p s fp with
    | .error e => .fail s 0 [] [] e
    | .ok (s', fp', a) =>
      match translateLoop p s' rest with
      | .ok s'' rews acts => .ok s'' (fp' :: rews) (a :: acts)
      | .fail s'' k rews acts e => .fail s'' (k + 1) (fp' :: rews) (a :: acts) e

/-- One step of the release walk of `binder_transaction_buffer_release`
(binder.c:2021-2068) over a rewritten entry, on the target process.
`closeFds` is `failed_at != NULL`: only the failure unwind closes installed
fds (after delivery they belong to the receiver).  An entry whose object can
no longer be found is logged and skipped (`none`). -/
def release_entry (s : St) (tid : Nat) (closeFds : Bool) :
    FlatObj → St × Option RAction
  | .binderObj strong ptr _ _ =>
    match binder_get_node s tid ptr with
    | none => (s, none)
    | some node => (binder_dec_node s node.nid strong false,
                    some (.decNodeAct ptr strong))
  | .handleObj strong handle =>
    match binder_get_ref s tid handle with
    | none => (s, none)
    | some _ => ((binder_dec_ref_t s tid handle strong).1,
                 some (.decRefAct handle strong))
  | .fdObj fd =>
    if closeFds then
      ({ s with targetFds := s.targetFds.filter (fun x => x ≠ fd) },
       some (.closeFdAct fd))
    else (s, none)
  | .badObj => (s, none)

/-- The release walk over a list of rewritten entries, collecting the
actions performed. -/
def releaseLoop (tid : Nat) (closeFds : Bool) :
    St → List FlatObj → St × List RAction
  | s, [] => (s, [])
  | s, fp :: rest =>
    let (s', a) := release_entry s tid closeFds fp
    let (s'', as') := releaseLoop tid closeFds s' rest
    (s'', (a.elim [] (fun x => [x])) ++ as')

/-- `binder_transaction_buffer_release` (binder.c:2002-2069): drop the
target-node local strong reference the build took (binder.c:1777,
undone at 2013-2014), then walk the buffer's rewritten object table —
up to `failed_at` in the unwind case, which is the prefix passed here. -/
def binder_transaction_buffer_release (s : St) (tid : Nat)
    (targetNode : Option Nat) (entries : List FlatObj) (closeFds : Bool) :
    St × List RAction :=
  let s :=
    match targetNode with
    | some nid => binder_dec_node s nid true false
    | none => s
  releaseLoop tid closeFds s entries

/-- The two return-error slots of a `binder_thread`.  `none` models a value
the C code left indeterminate (assigned from an uninitialized variable). -/
structure ErrSlots where
  return_error : Option BrCode
  return_error2 : Option BrCode
deriving Repr, DecidableEq

/-- The `t->from` / `t->from_parent` chain that `binder_send_failed_reply`
walks: the caller thread of each frame (if still alive) and the outer
frame. -/
inductive FChain
  | mk (fromThread : Option Nat) (parent : Option FChain)

/-- `binder_send_failed_reply` (binder.c:1541-1592) restricted to its effect
on the return-error slots: find the innermost frame with a live caller; if
its primary slot is busy but the secondary free, shift; if the primary slot
is then free, record the error code there (the frame is popped and the
caller woken); otherwise log and stop.  Frames with no caller fall through
to `from_parent`. -/
def binder_send_failed_reply (errs : Nat → ErrSlots) :
    FChain → Option BrCode → (Nat → ErrSlots)
  | .mk (some tid) _, ec =>
    let e0 := errs tid
    let e1 :=
      if e0.return_error ≠ some .BR_OK ∧ e0.return_error2 = some .BR_OK then
        { return_error := some BrCode.BR_OK, return_error2 := e0.return_error }
      else e0
    let e2 :=
      if e1.return_error = some .BR_OK then { e1 with return_error := ec } else e1
    fun t => if t = tid then e2 else errs t
  | .mk none parent, ec =>
    match parent with
    | none => errs
    | some next => binder_send_failed_reply errs next ec

/-- Outcome of the translation stage of `binder_transaction`: all entries
rewritten, or the unwound failure with the index `k` of the failing offset,
the entries that were released, the release actions, and the error value
recorded for the sender. -/
inductive TOutcome
  | success (s : St) (errs : Nat → ErrSlots) (rewritten : List FlatObj)
      (acts : List TAction)
  | failure (s : St) (errs : Nat → ErrSlots) (k : Nat)
      (released : List FlatObj) (racts : List RAction) (err : Option BrCode)

/-- The translation stage of `binder_transaction` with its failure unwind
(binder.c:1722-2000).  The prologue allocates the transaction struct, the
completion work item and the target-side buffer (binder.c:1722-1775) and
takes the target-node local strong reference (1776-1777).  On a translation
failure at offset `k`, the error path (1958-1999) releases the first `k`
translated objects (`failed_at = offp`), drops the buffer, frees the two
allocations, and then either propagates the error to the original caller
via `binder_send_failed_reply` (after setting the sender's `return_error`
to `BR_TRANSACTION_COMPLETE`) if this was a reply, or records the error
value in the sender's `return_error`.  The prologue is `transPrologue`
below: it accounts for the freshly allocated transaction struct, completion
work item and target-side buffer, and takes the local strong reference on
the target node (`binder_inc_node(target_node, 1, 0, NULL)`). -/
def transPrologue (s : St) (p : TParams) : St :=
  let s := { s with transactionsAlive := s.transactionsAlive + 1,
                    completionsAlive := s.completionsAlive + 1,
                    buffersAlive := s.buffersAlive + 1 }
  match p.targetNode with
  | some nid => (binder_inc_node s nid true false false).1
  | none => s

def binder_transaction_objects (s : St) (errs : Nat → ErrSlots)
    (p : TParams) (senderTid : Nat) (inReplyTo : Option FChain)
    (objs : List FlatObj) : TOutcome :=
  match translateLoop p (transPrologue s p) objs with
  | .ok s' rews acts => .success s' errs rews acts
  | .fail s' k rews _acts e =>
    let rr :=
      binder_transaction_buffer_release s' p.targetId p.targetNode rews true
    let s3 := { rr.1 with buffersAlive := rr.1.buffersAlive - 1,
                          completionsAlive := rr.1.completionsAlive - 1,
                          transactionsAlive := rr.1.transactionsAlive - 1 }
    match inReplyTo with
    | some chain =>
      let errs' := fun t =>
        if t = senderTid then
          { errs t with return_error := some BrCode.BR_TRANSACTION_COMPLETE }
        else errs t
      .failure s3 (binder_send_failed_reply errs' chain e) k rews rr.2 e
    | none =>
      .failure s3
        (fun t => if t = senderTid then { errs t with return_error := e }
                  else errs t)
        k rews rr.2 e

/-- The index at which a failed translation stage stopped (`none` for a
successful one). -/
def TOutcome.failIndex : TOutcome → Option Nat
  | .success _ _ _ _ => none
  | .failure _ _ k _ _ _ => some k

/-- The error value a failed translation stage records for the sender
(`none` for a successful stage; `some none` when the run failed but the
recorded value is the model's indeterminate marker). -/
def TOutcome.errOf : TOutcome → Option (Option BrCode)
  | .success _ _ _ _ => none
  | .failure _ _ _ _ _ e => some e

/-- The per-thread return-error slots after the translation stage. -/
def TOutcome.errsOf : TOutcome → (Nat → ErrSlots)
  | .success _ errs _ _ => errs
  | .failure _ errs _ _ _ _ => errs

/-- The strong/weak counts of process `pid`'s reference `desc` (0/0 when no
such reference object exists).  This is the projection the failure unwind
must restore: reference objects with both counts at 0 are exactly the ones
whose existence carries no count. -/
def refCounts (s : St) (pid desc : Nat) : Int × Int :=
  match binder_get_ref s pid desc with
  | some r => (r.strong, r.weak)
  | none => (0, 0)

/-- The three counters of node `nid` (all 0 when no such node exists). -/
def nodeCounts (s : St) (nid : Nat) : Int × Int × Int :=
  match getNodeById s nid with
  | some nd => (nd.internal_strong_refs, nd.local_strong_refs, nd.local_weak_refs)
  | none => (0, 0, 0)

/-- Basic well-formedness of a broker state: node identities are below the
id counter (so fresh ids are fresh) and installed fds are below the next
fd (so a newly installed fd is fresh). -/
structure WF (s : St) : Prop where
  nidBound : ∀ nd ∈ s.nodes, nd.nid ≤ s.lastId
  fdBound : ∀ f ∈ s.targetFds, f < s.nextFd

/-- The three allocation counters the failure unwind must restore: live
transaction structs, completion work items and target-side buffers. -/
def counters (s : St) : Nat × Nat × Nat :=
  (s.transactionsAlive, s.completionsAlive, s.buffersAlive)

/-- A broker state with a sender-owned node (`ptr = 1`, `cookie = 5`) and a
target-owned node (identity 2, the resolved target of the call) that the
sender holds a reference to. -/
def cookieMismatchState : St :=
  { nodes :=
      [{ nid := 1, ownerId := some 10, ptr := 1, cookie := 5,
         internal_strong_refs := 0, local_strong_refs := 1,
         local_weak_refs := 0, has_strong_ref := true, has_weak_ref := true,
         workQueued := false, min_priority := 0, accept_fds := true },
       { nid := 2, ownerId := some 20, ptr := 9, cookie := 0,
         internal_strong_refs := 1, local_strong_refs := 0,
         local_weak_refs := 0, has_strong_ref := true, has_weak_ref := true,
         workQueued := false, min_priority := 0, accept_fds := true }],
    refs := [{ procId := 10, desc := 1, nid := 2, strong := 1, weak := 0 }],
    ctxMgr := none, lastId := 2, senderFds := [], targetFds := [],
    nextFd := 3, transactionsAlive := 0, completionsAlive := 0,
    buffersAlive := 0 }

/-- The parameters of the call: process 10 sends a BC_TRANSACTION to
process 20's node 2. -/
def cookieMismatchParams : TParams :=
  { senderId := 10, targetId := 20, reply := false, replyAcceptFds := false,
    targetNode := some 2 }

/-- All return-error slots idle (`BR_OK`), as `binder_transaction` asserts
on entry to its error path (binder.c:1994). -/
def cookieMismatchErrs : Nat → ErrSlots :=
  fun _ => { return_error := some BrCode.BR_OK,
             return_error2 := some BrCode.BR_OK }

/-- The payload: a single local binder object whose `binder` pointer names
the sender's node 1 but whose cookie (7) differs from the node's (5). -/
def cookieMismatchObjs : List FlatObj :=
  [FlatObj.binderObj true 1 7 0]

/-- The translation stage run on the cookie-mismatch input. -/
def cookieMismatchRun : TOutcome :=
  binder_transaction_objects cookieMismatchState cookieMismatchErrs
    cookieMismatchParams 100 none cookieMismatchObjs

/-- A target state with two installed fds and a reply sender owning fd 5. -/
def fdExampleState : St :=
  { nodes := [], refs := [], ctxMgr := none, lastId := 0, senderFds := [5],
    targetFds := [0, 1], nextFd := 2, transactionsAlive := 0,
    completionsAlive := 0, buffersAlive := 0 }

/-- Reply parameters whose replied-to transaction had TF_ACCEPT_FDS. -/
def fdExampleParams : TParams :=
  { senderId := 10, targetId := 20, reply := true, replyAcceptFds := true,
    targetNode := none }

/-- `fdExampleState` after fd 5 was translated: fd 2 installed in the
target. -/
def fdInstalledState : St :=
  { fdExampleState with targetFds := [0, 1, 2], nextFd := 3 }

end Trans

/-! # Theorems -/

/-! ## C8: looper registration commands -/

/-- C8: for every worker, `BC_ENTER_LOOPER` and `BC_REGISTER_LOOPER` are
mutually exclusive — issuing the second after the first marks the worker
INVALID; `BC_REGISTER_LOOPER` is valid only when `requested_threads` is
positive, and on success the broker decrements `requested_threads` and
increments `requested_threads_started` (and does not mark the worker
invalid). -/
theorem C8_looper_commands (p : ThreadPoolProc) (l : LooperState) :
    (l.registered = true → (bcEnterLooper l).invalid = true) ∧
    (l.entered = true →
      (bcRegisterLooper p l).2.invalid = true ∧ (bcRegisterLooper p l).1 = p) ∧
    (l.entered = false → p.requested_threads = 0 →
      (bcRegisterLooper p l).2.invalid = true ∧ (bcRegisterLooper p l).1 = p) ∧
    (l.entered = false → 0 < p.requested_threads →
      (bcRegisterLooper p l).1.requested_threads = p.requested_threads - 1 ∧
      (bcRegisterLooper p l).1.requested_threads_started
        = p.requested_threads_started + 1 ∧
      (bcRegisterLooper p l).1.max_threads = p.max_threads ∧
      (bcRegisterLooper p l).2.invalid = l.invalid) := by
  refine ⟨?_, ?_, ?_, ?_⟩
  · intro h; simp [bcEnterLooper, h]
  · intro h; simp [bcRegisterLooper, h]
  · intro h1 h2; simp [bcRegisterLooper, h1, h2]
  · intro h1 h2
    have h3 : p.requested_threads ≠ 0 := Nat.pos_iff_ne_zero.mp h2
    simp [bcRegisterLooper, h1, h3]

/-- Witness for C8 at a concrete worker and process. -/
theorem C8_looper_commands_witness :
    (bcEnterLooper ⟨true, false, false, false⟩).invalid = true ∧
    (bcRegisterLooper ⟨2, 5, 8, 0⟩ ⟨false, false, false, false⟩).1.requested_threads
      = 1 := by
  refine ⟨(C8_looper_commands ⟨2, 5, 8, 0⟩ ⟨true, false, false, false⟩).1 rfl, ?_⟩
  have h := (C8_looper_commands ⟨2, 5, 8, 0⟩
      ⟨false, false, false, false⟩).2.2.2 rfl (by decide)
  simpa using h.1

/-! ## C9: the BR_SPAWN_LOOPER condition -/

/-- C9 counterexample: a worker that has neither entered nor registered ends
a read with `requested_threads + ready_threads = 0` and
`requested_threads_started < max_threads`, yet no `BR_SPAWN_LOOPER` is
emitted and `requested_threads` stays 0 — the claim's two conditions are not
sufficient. -/
theorem C9_spawn_counterexample :
    ((0 : Nat) + 0 = 0 ∧ (0 : Nat) < 1) ∧
    (readSpawnDecision ⟨0, 0, 1, 0⟩ ⟨false, false, false, false⟩).1 = false ∧
    (readSpawnDecision ⟨0, 0, 1, 0⟩
        ⟨false, false, false, false⟩).2.requested_threads = 0 := by
  decide

/-- C9 (amended): at the end of a read, `BR_SPAWN_LOOPER` is emitted and
`requested_threads` incremented iff `requested_threads + ready_threads = 0`,
`requested_threads_started < max_threads`, and the reading worker has
entered or registered; this is the only condition under which it is
emitted, and otherwise the counters are unchanged. -/
theorem C9_spawn_decision (p : ThreadPoolProc) (l : LooperState) :
    ((readSpawnDecision p l).1 = true ↔
      p.requested_threads + p.ready_threads = 0 ∧
      p.requested_threads_started < p.max_threads ∧
      (l.registered = true ∨ l.entered = true)) ∧
    ((readSpawnDecision p l).1 = true →
      (readSpawnDecision p l).2
        = { p with requested_threads := p.requested_threads + 1 }) ∧
    ((readSpawnDecision p l).1 = false → (readSpawnDecision p l).2 = p) := by
  unfold readSpawnDecision
  split
  next h => simp [h]
  next h =>
    exact ⟨⟨fun hh => by simp at hh, fun hc => absurd hc h⟩,
           fun hh => by simp at hh, fun _ => rfl⟩

/-- Witness for C9 (amended) at a concrete worker and process. -/
theorem C9_spawn_decision_witness :
    (readSpawnDecision ⟨0, 0, 1, 0⟩ ⟨true, false, false, false⟩).2
      = ⟨1, 0, 1, 0⟩ :=
  (C9_spawn_decision ⟨0, 0, 1, 0⟩ ⟨true, false, false, false⟩).2.1 (by decide)

/-! ## C10: reference-count underflow rejection -/

/-- C10: a `BC_RELEASE` applied to a reference whose strong count is 0, or a
`BC_DECREFS` applied to one whose weak count is 0, is rejected as a user
error (`-EINVAL`) with no state change — the reference object, both of its
counts and the node's counters are left as they were — and the handled
commands never drive a nonnegative count negative. -/
theorem C10_refcount_underflow (r : RefCounters) (n : NodeCounters) :
    (r.strong = 0 →
      binder_dec_ref r n true = .error () ∧
      handleRefDecCmd .bcRelease r n = (some r, n)) ∧
    (r.weak = 0 →
      binder_dec_ref r n false = .error () ∧
      handleRefDecCmd .bcDecrefs r n = (some r, n)) ∧
    (0 ≤ r.strong → 0 ≤ r.weak →
      ∀ cmd r2 n2, handleRefDecCmd cmd r n = (some r2, n2) →
        0 ≤ r2.strong ∧ 0 ≤ r2.weak) := by
  refine ⟨?_, ?_, ?_⟩
  · intro h; simp [binder_dec_ref, handleRefDecCmd, h]
  · intro h; simp [binder_dec_ref, handleRefDecCmd, h]
  · intro hs hw cmd r2 n2 h
    cases cmd with
    | bcRelease =>
      by_cases h0 : r.strong = 0
      · simp [handleRefDecCmd, binder_dec_ref, h0] at h
        rcases h with ⟨h1, -⟩
        subst h1; exact ⟨hs, hw⟩
      · by_cases hc : r.strong - 1 = 0 ∧ r.weak = 0
        · simp [handleRefDecCmd, binder_dec_ref, h0, hc] at h
        · simp [handleRefDecCmd, binder_dec_ref, h0, hc] at h
          rcases h with ⟨h1, -⟩
          rw [← h1]
          constructor
          · simp; omega
          · simpa using hw
    | bcDecrefs =>
      by_cases h0 : r.weak = 0
      · simp [handleRefDecCmd, binder_dec_ref, h0] at h
        rcases h with ⟨h1, -⟩
        subst h1; exact ⟨hs, hw⟩
      · by_cases hc : r.strong = 0 ∧ r.weak - 1 = 0
        · simp [handleRefDecCmd, binder_dec_ref, h0, hc] at h
        · simp [handleRefDecCmd, binder_dec_ref, h0, hc] at h
          rcases h with ⟨h1, -⟩
          rw [← h1]
          constructor
          · simpa using hs
          · simp; omega

/-- Witness for C10 at a concrete reference and node. -/
theorem C10_refcount_underflow_witness :
    binder_dec_ref ⟨0, 0⟩ ⟨3, 0, 0, 1⟩ true = .error () ∧
    handleRefDecCmd .bcRelease ⟨0, 0⟩ ⟨3, 0, 0, 1⟩ = (some ⟨0, 0⟩, ⟨3, 0, 0, 1⟩) :=
  (C10_refcount_underflow ⟨0, 0⟩ ⟨3, 0, 0, 1⟩).1 rfl

/-! ## C3: descriptor assignment -/

/-- The scan loop of `binder_get_ref_for_node` computes the least value
`≥ c` not among the sorted existing descriptors, provided every existing
descriptor `d` satisfies `c ≤ d + 1` (true for the starting candidates 0
and 1). -/
theorem descScan_least (l : List Nat) (c : Nat)
    (hs : l.Pairwise (· < ·)) (hb : ∀ x ∈ l, c ≤ x + 1) :
    descScan l c ∉ l ∧ c ≤ descScan l c ∧
      ∀ m, c ≤ m → m < descScan l c → m ∈ l := by
  induction l generalizing c with
  | nil => simp [descScan]
  | cons d rest ih =>
    rw [List.pairwise_cons] at hs
    obtain ⟨hd, hrest⟩ := hs
    by_cases hlt : c < d
    · rw [descScan, if_pos hlt]
      refine ⟨?_, le_refl c, fun m hm hm2 => absurd hm (by omega)⟩
      intro hmem
      rcases List.mem_cons.mp hmem with h1 | h1
      · omega
      · have := hd c h1
        omega
    · have hdc : d ≤ c := le_of_not_lt hlt
      have hcd1 : c ≤ d + 1 := hb d (List.mem_cons_self d rest)
      have heq : descScan (d :: rest) c = descScan rest (d + 1) := by
        rw [descScan, if_neg hlt]
      have hb' : ∀ x ∈ rest, d + 1 ≤ x + 1 := fun x hx => by
        have := hd x hx; omega
      obtain ⟨h1, h2, h3⟩ := ih (d + 1) hrest hb'
      rw [heq]
      refine ⟨?_, by omega, ?_⟩
      · intro hmem
        rcases List.mem_cons.mp hmem with hm | hm
        · omega
        · exact h1 hm
      · intro m hm hm2
        by_cases hmd : m = d
        · exact hmd ▸ List.mem_cons_self d rest
        · exact List.mem_cons_of_mem d (h3 m (by omega) hm2)

/-- Membership in the ordered insertion. -/
theorem mem_insertByDesc (r e : RefEntry) (l : List RefEntry) :
    e ∈ insertByDesc r l ↔ e = r ∨ e ∈ l := by
  induction l with
  | nil => simp [insertByDesc]
  | cons x xs ih =>
    rw [insertByDesc]
    split
    · simp [List.mem_cons]
    · simp [List.mem_cons, ih]
      tauto

/-- C3: when a new reference to node `N` is created in a process, its
descriptor is 0 if `N` is the context-manager node (given, as the driver
maintains, that descriptor 0 is not in use) and otherwise the smallest
positive integer not currently used by any of the process's references;
creating a reference leaves every existing entry (and thus its descriptor)
unchanged, and deleting one leaves all others unchanged. -/
theorem C3_descriptor_assignment (refs : List RefEntry) (nodeId : Nat)
    (isCtx : Bool)
    (hsorted : (refs.map RefEntry.desc).Pairwise (· < ·))
    (hnew : refs.find? (fun r => r.nodeId = nodeId) = none) :
    (isCtx = true → 0 ∉ refs.map RefEntry.desc →
      (binder_get_ref_for_node refs nodeId isCtx).1.desc = 0) ∧
    (isCtx = false →
      (binder_get_ref_for_node refs nodeId isCtx).1.desc ∉ refs.map RefEntry.desc ∧
      1 ≤ (binder_get_ref_for_node refs nodeId isCtx).1.desc ∧
      ∀ m, 1 ≤ m → m < (binder_get_ref_for_node refs nodeId isCtx).1.desc →
        m ∈ refs.map RefEntry.desc) ∧
    (∀ e ∈ refs, e ∈ (binder_get_ref_for_node refs nodeId isCtx).2) ∧
    (∀ (ds : Nat) (e : RefEntry), e ∈ refs → e.desc ≠ ds →
      e ∈ binder_delete_ref_table refs ds) := by
  refine ⟨?_, ?_, ?_, ?_⟩
  · intro hctx h0
    subst hctx
    obtain ⟨ha, hb, hc⟩ := descScan_least (refs.map RefEntry.desc) 0 hsorted
      (fun x _ => by omega)
    have hres : (binder_get_ref_for_node refs nodeId true).1.desc
        = descScan (refs.map RefEntry.desc) 0 := by
      simp [binder_get_ref_for_node, hnew]
    rw [hres]
    by_contra hne
    exact h0 (hc 0 (le_refl 0) (by omega))
  · intro hctx
    subst hctx
    obtain ⟨ha, hb, hc⟩ := descScan_least (refs.map RefEntry.desc) 1 hsorted
      (fun x _ => by omega)
    have hres : (binder_get_ref_for_node refs nodeId false).1.desc
        = descScan (refs.map RefEntry.desc) 1 := by
      simp [binder_get_ref_for_node, hnew]
    rw [hres]
    exact ⟨ha, hb, hc⟩
  · intro e he
    simp only [binder_get_ref_for_node, hnew]
    exact (mem_insertByDesc _ e refs).mpr (Or.inr he)
  · intro ds e he hne
    simp only [binder_delete_ref_table]
    exact List.mem_filter.mpr ⟨he, by simpa using hne⟩

/-- Witness for C3 at a concrete reference table. -/
theorem C3_descriptor_assignment_witness :
    1 ≤ (binder_get_ref_for_node [⟨1, 100⟩, ⟨2, 200⟩] 300 false).1.desc ∧
    (binder_get_ref_for_node [⟨1, 100⟩, ⟨2, 200⟩] 300 false).1.desc
      ∉ [⟨1, 100⟩, ⟨2, 200⟩].map RefEntry.desc := by
  have h := (C3_descriptor_assignment [⟨1, 100⟩, ⟨2, 200⟩] 300 false
    (by decide) (by decide)).2.1 rfl
  exact ⟨h.2.1, h.1⟩

/-! ## C2: per-node async serialization -/

/-- The ghost `inflight` counter tracks the `has_async_transaction` flag on
every reachable async state: the flag is set iff exactly one async
transaction of the node is in flight, and never more than one is. -/
theorem async_flag_tracks_inflight (s : AsyncState) (h : AsyncReachable s) :
    (s.has_async_transaction = true ↔ s.inflight = 1) ∧ s.inflight ≤ 1 := by
  induction h with
  | init => simp
  | send s' w _ ih =>
    by_cases hf : s'.has_async_transaction = true
    · simpa [asyncTransactionEnqueue, hf] using ih
    · have hf' : s'.has_async_transaction = false := by
        simpa using hf
      have h0 : s'.inflight = 0 := by
        rcases ih with ⟨hiff, hle⟩
        rcases Nat.lt_or_ge s'.inflight 1 with h1 | h1
        · omega
        · exfalso
          exact hf (hiff.mpr (by omega))
      simp [asyncTransactionEnqueue, hf', h0]
  | free s' _ hflag ih =>
    have h1 : s'.inflight = 1 := ih.1.mp hflag
    cases hq : s'.async_todo with
    | nil => simp [freeBufferAsyncStep, hq, h1]
    | cons x rest => simp [freeBufferAsyncStep, hq, h1, hflag]

/-- C2: for every node, at most one async transaction is in flight at a
time.  An async send while the node's `has_async_transaction` flag is set is
appended to `node->async_todo` without waking anyone; a send while it is
clear sets the flag, queues on the process todo and wakes it.  When the
receiver frees an async buffer of the node, the first queued item of
`async_todo` (if any) is moved to the freeing thread's todo with the flag
staying set, and the flag is cleared only when the queue is empty.  On every
reachable state at most one async of the node is in flight, and none when
the flag is clear. -/
theorem C2_async_serialization :
    (∀ (s : AsyncState) (w : Nat), s.has_async_transaction = true →
      asyncTransactionEnqueue s w
        = ({ s with async_todo := s.async_todo ++ [w] }, false)) ∧
    (∀ (s : AsyncState) (w : Nat), s.has_async_transaction = false →
      asyncTransactionEnqueue s w
        = ({ s with has_async_transaction := true,
                    proc_todo := s.proc_todo ++ [w],
                    inflight := s.inflight + 1 }, true)) ∧
    (∀ s : AsyncState, s.async_todo = [] →
      freeBufferAsyncStep s
        = { s with has_async_transaction := false,
                   inflight := s.inflight - 1 }) ∧
    (∀ (s : AsyncState) (x : Nat) (rest : List Nat), s.async_todo = x :: rest →
      freeBufferAsyncStep s
        = { s with async_todo := rest,
                   thread_todo := s.thread_todo ++ [x] }) ∧
    (∀ s : AsyncState, AsyncReachable s →
      s.inflight ≤ 1 ∧ (s.has_async_transaction = false → s.inflight = 0)) := by
  refine ⟨?_, ?_, ?_, ?_, ?_⟩
  · intro s w h; simp [asyncTransactionEnqueue, h]
  · intro s w h; simp [asyncTransactionEnqueue, h]
  · intro s h; simp [freeBufferAsyncStep, h]
  · intro s x rest h; simp [freeBufferAsyncStep, h]
  · intro s hs
    have h := async_flag_tracks_inflight s hs
    refine ⟨h.2, fun hf => ?_⟩
    rcases Nat.lt_or_ge s.inflight 1 with h1 | h1
    · omega
    · have : s.has_async_transaction = true := h.1.mpr (by omega)
      rw [hf] at this
      cases this

/-! ## C4, C5: the buffer arena -/

namespace Alloc

/-- Specification of the min-picking fold behind `pickMinBy`, generalized
over the accumulator. -/
theorem foldlMin_spec (f : BinderBuffer → Nat) (l : List BinderBuffer) :
    ∀ acc : Option BinderBuffer,
      (l.foldl (fun acc b =>
          match acc with
          | none => some b
          | some a => if f b < f a then some b else some a) acc = none →
        acc = none ∧ l = []) ∧
      (∀ c, l.foldl (fun acc b =>
          match acc with
          | none => some b
          | some a => if f b < f a then some b else some a) acc = some c →
        (c ∈ l ∨ acc = some c) ∧ (∀ b ∈ l, f c ≤ f b) ∧
          ∀ a, acc = some a → f c ≤ f a) := by
  induction l with
  | nil =>
    intro acc
    constructor
    · intro h
      exact ⟨by simpa using h, rfl⟩
    · intro c h
      rw [List.foldl_nil] at h
      refine ⟨Or.inr h, by simp, ?_⟩
      intro a ha
      rw [h] at ha
      cases ha
      exact le_refl _
  | cons x xs ih =>
    intro acc
    cases acc with
    | none =>
      simp only [List.foldl_cons]
      constructor
      · intro h
        have h2 := (ih (some x)).1 h
        cases h2.1
      · intro c h
        obtain ⟨hmem, hmin, hacc⟩ := (ih (some x)).2 c h
        refine ⟨?_, ?_, ?_⟩
        · rcases hmem with hm | hm
          · exact Or.inl (List.mem_cons_of_mem _ hm)
          · cases hm
            exact Or.inl (List.mem_cons_self _ _)
        · intro b hb
          rcases List.mem_cons.mp hb with hb | hb
          · subst hb
            exact hacc b rfl
          · exact hmin b hb
        · intro a ha
          cases ha
    | some a =>
      simp only [List.foldl_cons]
      by_cases hlt : f x < f a
      · rw [if_pos hlt]
        constructor
        · intro h
          cases ((ih (some x)).1 h).1
        · intro c h
          obtain ⟨hmem, hmin, hacc⟩ := (ih (some x)).2 c h
          refine ⟨?_, ?_, ?_⟩
          · rcases hmem with hm | hm
            · exact Or.inl (List.mem_cons_of_mem _ hm)
            · cases hm
              exact Or.inl (List.mem_cons_self _ _)
          · intro b hb
            rcases List.mem_cons.mp hb with hb | hb
            · subst hb
              exact hacc b rfl
            · exact hmin b hb
          · intro a' ha'
            cases ha'
            exact le_trans (hacc x rfl) (le_of_lt hlt)
      · rw [if_neg hlt]
        constructor
        · intro h
          cases ((ih (some a)).1 h).1
        · intro c h
          obtain ⟨hmem, hmin, hacc⟩ := (ih (some a)).2 c h
          refine ⟨?_, ?_, ?_⟩
          · rcases hmem with hm | hm
            · exact Or.inl (List.mem_cons_of_mem _ hm)
            · exact Or.inr hm
          · intro b hb
            rcases List.mem_cons.mp hb with hb | hb
            · subst hb
              exact le_trans (hacc a rfl) (le_of_not_lt hlt)
            · exact hmin b hb
          · exact hacc

/-- The best-fit search: `none` exactly when no free buffer is big enough,
and otherwise a free buffer of minimal sufficient size. -/
theorem bestFit_spec (s : AllocState) (size : Nat) :
    (bestFit s size = none ↔
      ∀ b ∈ s.buffers, b.free = true → binder_buffer_size s b < size) ∧
    ∀ c, bestFit s size = some c →
      c ∈ s.buffers ∧ c.free = true ∧ size ≤ binder_buffer_size s c ∧
        ∀ b ∈ s.buffers, b.free = true → size ≤ binder_buffer_size s b →
          binder_buffer_size s c ≤ binder_buffer_size s b := by
  have hspec := foldlMin_spec (binder_buffer_size s)
    (s.buffers.filter (fun b => b.free && decide (size ≤ binder_buffer_size s b)))
    none
  constructor
  · constructor
    · intro h b hb hbf
      by_contra hged
      push_neg at hged
      have h2 := (hspec.1 h).2
      have hbmem : b ∈ s.buffers.filter
          (fun b => b.free && decide (size ≤ binder_buffer_size s b)) :=
        List.mem_filter.mpr ⟨hb, by simp [hbf, hged]⟩
      rw [h2] at hbmem
      cases hbmem
    · intro h
      rcases hfe : bestFit s size with _ | c
      · rfl
      · exfalso
        obtain ⟨hmem, -, -⟩ := hspec.2 c hfe
        rcases hmem with hm | hm
        · obtain ⟨hm1, hm2⟩ := List.mem_filter.mp hm
          simp at hm2
          have h3 := h c hm1 hm2.1
          omega
        · cases hm
  · intro c hfe
    obtain ⟨hmem, hmin, -⟩ := hspec.2 c hfe
    rcases hmem with hm | hm
    · obtain ⟨hmem2, hcond⟩ := List.mem_filter.mp hm
      simp at hcond
      refine ⟨hmem2, hcond.1, hcond.2, ?_⟩
      intro b hb hbf hble
      exact hmin b (List.mem_filter.mpr ⟨hb, by simp [hbf, hble]⟩)
    · cases hm

/-- A successful `find?` splits the list at the first hit. -/
theorem find?_decomp (p : BinderBuffer → Bool) (l : List BinderBuffer)
    (x : BinderBuffer) (h : l.find? p = some x) :
    ∃ l1 l2, l = l1 ++ x :: l2 ∧ ∀ b ∈ l1, p b = false := by
  induction l with
  | nil => cases h
  | cons y ys ih =>
    by_cases hy : p y = true
    · rw [List.find?_cons_of_pos _ hy] at h
      cases h
      exact ⟨[], ys, rfl, by simp⟩
    · rw [List.find?_cons_of_neg _ (by simpa using hy)] at h
      obtain ⟨l1, l2, heq, hall⟩ := ih h
      refine ⟨y :: l1, l2, by rw [heq, List.cons_append], ?_⟩
      intro b hb
      rcases List.mem_cons.mp hb with hb | hb
      · subst hb
        simpa using hy
      · exact hall b hb

/-- A map that fixes every element of the list is the identity on it. -/
theorem map_eq_self (g : BinderBuffer → BinderBuffer) (l : List BinderBuffer)
    (h : ∀ b ∈ l, g b = b) : l.map g = l := by
  induction l with
  | nil => rfl
  | cons x xs ih =>
    rw [List.map_cons, h x (List.mem_cons_self x xs),
      ih (fun b hb => h b (List.mem_cons_of_mem x hb))]

/-- `replaceBuffer` rewrites exactly the first address hit. -/
theorem replaceBuffer_append (l1 : List BinderBuffer) (c : BinderBuffer)
    (l2 repl : List BinderBuffer) (h : ∀ b ∈ l1, b.addr ≠ c.addr) :
    replaceBuffer (l1 ++ c :: l2) c.addr repl = l1 ++ (repl ++ l2) := by
  induction l1 with
  | nil =>
    rw [List.nil_append, replaceBuffer]
    simp
  | cons y ys ih =>
    rw [List.cons_append, replaceBuffer,
      if_neg (h y (List.mem_cons_self y ys)),
      ih (fun b hb => h b (List.mem_cons_of_mem y hb)), List.cons_append]

/-- Dropping only zero-charge elements preserves the total charge. -/
theorem sum_filter_charge (l : List BinderBuffer) (p : BinderBuffer → Bool)
    (h : ∀ b ∈ l, p b = false → bufCharge b = 0) :
    ((l.filter p).map bufCharge).sum = (l.map bufCharge).sum := by
  induction l with
  | nil => rfl
  | cons x xs ih =>
    have ih2 := ih (fun b hb hpb => h b (List.mem_cons_of_mem x hb) hpb)
    by_cases hx : p x = true
    · rw [List.filter_cons_of_pos hx]
      simp [ih2]
    · have hx' : p x = false := by simpa using hx
      rw [List.filter_cons_of_neg (by simpa using hx)]
      simp [ih2, h x (List.mem_cons_self x xs) hx']

/-- `binder_buffer_size` of a buffer in a decomposed address-ordered list:
distance to the next header, or to the arena end for the last buffer. -/
theorem buffer_size_decomp (s : AllocState) (l1 l2 : List BinderBuffer)
    (c : BinderBuffer) (h : s.buffers = l1 ++ c :: l2)
    (hl1 : ∀ b ∈ l1, ¬ c.addr < b.addr)
    (hl2 : ∀ b ∈ l2, c.addr < b.addr) :
    binder_buffer_size s c
      = l2.head?.elim (s.buffer_size - (c.addr + hdrSize))
          (fun nxt => nxt.addr - (c.addr + hdrSize)) := by
  unfold binder_buffer_size
  rw [h, List.find?_append]
  have h1 : l1.find? (fun x => decide (c.addr < x.addr)) = none :=
    List.find?_eq_none.mpr (fun b hb => by simpa using hl1 b hb)
  rw [h1]
  cases l2 with
  | nil =>
    rw [List.find?_cons_of_neg _ (by simp)]
    simp
  | cons nxt rest =>
    rw [List.find?_cons_of_neg _ (by simp),
      List.find?_cons_of_pos _ (by simpa using hl2 nxt (List.mem_cons_self nxt rest))]
    simp

/-- Characterization of a successful allocation over an address-sorted
arena: the chosen block comes from the best-fit search, the async quota is
charged, and the block is either absorbed whole (when the remainder is at
most a header plus 4 bytes) or split, with the free tail's fresh header at
`data start + size`, linked right after the chosen block. -/
theorem binder_alloc_buf_some (s s' : AllocState) (d o a : Nat) (ia : Bool)
    (hpair : s.buffers.Pairwise (fun x y => x.addr + hdrSize ≤ y.addr))
    (hs : binder_alloc_buf s d o ia = some (s', a)) :
    ∃ c l1 l2,
      bestFit s (ALIGN d + ALIGN o) = some c ∧ a = c.addr ∧
      s.buffers = l1 ++ c :: l2 ∧
      s'.buffer_size = s.buffer_size ∧
      s'.free_async_space
        = (if ia then s.free_async_space - (ALIGN d + ALIGN o + hdrSize)
           else s.free_async_space) ∧
      ((binder_buffer_size s c ≤ ALIGN d + ALIGN o + hdrSize + 4 ∧
        s'.buffers = l1 ++
          ({ c with free := false, data_size := d, offsets_size := o,
                    async_transaction := ia } : BinderBuffer) :: l2) ∨
       (ALIGN d + ALIGN o + hdrSize + 4 < binder_buffer_size s c ∧
        s'.buffers = l1 ++
          ({ c with free := false, data_size := d, offsets_size := o,
                    async_transaction := ia } : BinderBuffer) ::
          (⟨c.addr + hdrSize + (ALIGN d + ALIGN o), true, 0, 0, false⟩ :
            BinderBuffer) :: l2)) := by
  rw [binder_alloc_buf] at hs
  split at hs
  · cases hs
  rcases hb : bestFit s (ALIGN d + ALIGN o) with _ | c
  · rw [hb] at hs
    cases hs
  rw [hb] at hs
  dsimp only at hs
  rw [Option.some_inj, Prod.mk.injEq] at hs
  obtain ⟨hst, haddr⟩ := hs
  obtain ⟨hcmem, hcfree, hcge, -⟩ := (bestFit_spec s (ALIGN d + ALIGN o)).2 c hb
  obtain ⟨l1, l2, hdec⟩ := List.append_of_mem hcmem
  have hl1ne : ∀ b ∈ l1, b.addr ≠ c.addr := by
    intro b hbm
    rw [hdec] at hpair
    rcases List.pairwise_append.mp hpair with ⟨-, -, hcross⟩
    have h1 := hcross b hbm c (List.mem_cons_self c l2)
    have h80 : hdrSize = 80 := rfl
    omega
  refine ⟨c, l1, l2, rfl, haddr.symm, hdec, ?_, ?_, ?_⟩
  · rw [← hst]
  · rw [← hst]
  · by_cases h84 : binder_buffer_size s c ≤ ALIGN d + ALIGN o + hdrSize + 4
    · left
      refine ⟨h84, ?_⟩
      rw [← hst]
      have hbs : (if binder_buffer_size s c = ALIGN d + ALIGN o then
            ALIGN d + ALIGN o
          else if ALIGN d + ALIGN o + hdrSize + 4 ≥ binder_buffer_size s c then
            ALIGN d + ALIGN o
          else ALIGN d + ALIGN o + hdrSize) = ALIGN d + ALIGN o := by
        by_cases he : binder_buffer_size s c = ALIGN d + ALIGN o
        · rw [if_pos he]
        · rw [if_neg he, if_pos (by omega)]
      show (if _ ≠ ALIGN d + ALIGN o then _ else _) = _
      rw [hbs]
      simp only [ne_eq, not_true_eq_false, if_false]
      rw [hdec]
      exact replaceBuffer_append l1 c l2 _ hl1ne
    · right
      refine ⟨by omega, ?_⟩
      rw [← hst]
      have hbs : (if binder_buffer_size s c = ALIGN d + ALIGN o then
            ALIGN d + ALIGN o
          else if ALIGN d + ALIGN o + hdrSize + 4 ≥ binder_buffer_size s c then
            ALIGN d + ALIGN o
          else ALIGN d + ALIGN o + hdrSize) = ALIGN d + ALIGN o + hdrSize := by
        rw [if_neg (by omega), if_neg (by omega)]
      show (if _ ≠ ALIGN d + ALIGN o then _ else _) = _
      rw [hbs]
      rw [if_pos (by simp [hdrSize])]
      rw [hdec]
      exact replaceBuffer_append l1 c l2 _ hl1ne

/-- The freshly mapped arena satisfies the invariant. -/
theorem allocInv_init (arena : Nat) (h : hdrSize ≤ arena) :
    AllocInv (binder_mmap_init arena) := by
  refine ⟨?_, ?_, ?_⟩
  · simp [binder_mmap_init, asyncAllocatedSpace, bufCharge]
  · simp [binder_mmap_init]
  · intro b hb
    simp [binder_mmap_init] at hb
    subst hb
    simpa using h

/-- Allocation preserves the arena invariant. -/
theorem allocInv_alloc (s s' : AllocState) (d o a : Nat) (ia : Bool)
    (hinv : AllocInv s) (hs : binder_alloc_buf s d o ia = some (s', a)) :
    AllocInv s' := by
  obtain ⟨hsum, hpair, hbound⟩ := hinv
  obtain ⟨c, l1, l2, hb, ha, hdec, hbsz, hfas, hbuf⟩ :=
    binder_alloc_buf_some s s' d o a ia hpair hs
  obtain ⟨-, hcfree, hcge, -⟩ := (bestFit_spec s (ALIGN d + ALIGN o)).2 c hb
  have h80 : hdrSize = 80 := rfl
  have hguard : ia = true → ALIGN d + ALIGN o + hdrSize ≤ s.free_async_space := by
    intro hia
    rw [binder_alloc_buf] at hs
    by_cases hg : ia = true ∧ s.free_async_space < ALIGN d + ALIGN o + hdrSize
    · rw [if_pos hg] at hs
      cases hs
    · push_neg at hg
      exact hg hia
  have hpair2 := hpair
  rw [hdec] at hpair2
  obtain ⟨hp1, hp2, hcross⟩ := List.pairwise_append.mp hpair2
  obtain ⟨hcl2, hp2t⟩ := List.pairwise_cons.mp hp2
  have hl1c : ∀ b ∈ l1, b.addr + hdrSize ≤ c.addr :=
    fun b hbm => hcross b hbm c (List.mem_cons_self c l2)
  have horig := buffer_size_decomp s l1 l2 c hdec
    (fun b hbm => by have := hl1c b hbm; omega)
    (fun b hbm => by have := hcl2 b hbm; omega)
  have hcmemS : c ∈ s.buffers := by
    rw [hdec]
    exact List.mem_append_right _ (List.mem_cons_self c l2)
  have hsum2 : s.free_async_space +
      ((l1.map bufCharge).sum + (l2.map bufCharge).sum) = s.buffer_size / 2 := by
    have := hsum
    rw [asyncAllocatedSpace, hdec] at this
    simpa [bufCharge, hcfree] using this
  have hchargeAlloc :
      bufCharge { c with free := false, data_size := d, offsets_size := o,
                         async_transaction := ia }
        = if ia then ALIGN d + ALIGN o + hdrSize else 0 := by
    cases ia <;> simp [bufCharge]
  rcases hbuf with ⟨h84, hbuf⟩ | ⟨h84, hbuf⟩
  · refine ⟨?_, ?_, ?_⟩
    · rw [hfas, hbsz]
      rw [asyncAllocatedSpace, hbuf]
      simp only [List.map_append, List.sum_append, List.map_cons, List.sum_cons,
        hchargeAlloc]
      by_cases hia : ia = true
      · have hg2 := hguard hia
        rw [if_pos hia, if_pos hia]
        omega
      · rw [if_neg hia, if_neg hia]
        omega
    · rw [hbuf]
      apply List.pairwise_append.mpr
      refine ⟨hp1, List.pairwise_cons.mpr ⟨?_, hp2t⟩, ?_⟩
      · intro b hbm
        exact hcl2 b hbm
      · intro x hx b hbm
        rcases List.mem_cons.mp hbm with hbm | hbm
        · subst hbm
          exact hcross x hx c (List.mem_cons_self c l2)
        · exact hcross x hx b (List.mem_cons_of_mem c hbm)
    · intro b hbm
      rw [hbuf] at hbm
      rw [hbsz]
      rcases List.mem_append.mp hbm with hbm | hbm
      · exact hbound b (by rw [hdec]; exact List.mem_append_left _ hbm)
      · rcases List.mem_cons.mp hbm with hbm | hbm
        · subst hbm
          exact hbound c hcmemS
        · exact hbound b (by
            rw [hdec]
            exact List.mem_append_right _ (List.mem_cons_of_mem c hbm))
  · have hkey : (∀ b ∈ l2,
        c.addr + hdrSize + (ALIGN d + ALIGN o) + hdrSize ≤ b.addr) ∧
        c.addr + hdrSize + (ALIGN d + ALIGN o) + hdrSize ≤ s.buffer_size := by
      cases l2 with
      | nil =>
        simp only [Option.elim, List.head?] at horig
        have hcb := hbound c hcmemS
        refine ⟨by simp, ?_⟩
        omega
      | cons nxt rest =>
        simp only [Option.elim, List.head?] at horig
        have hnxt := hcl2 nxt (List.mem_cons_self nxt rest)
        have hnxtb := hbound nxt (by
          rw [hdec]
          exact List.mem_append_right _
            (List.mem_cons_of_mem c (List.mem_cons_self nxt rest)))
        obtain ⟨hnr, -⟩ := List.pairwise_cons.mp hp2t
        constructor
        · intro b hbm
          rcases List.mem_cons.mp hbm with hbm | hbm
          · subst hbm
            omega
          · have := hnr b hbm
            omega
        · omega
    refine ⟨?_, ?_, ?_⟩
    · rw [hfas, hbsz]
      rw [asyncAllocatedSpace, hbuf]
      simp only [List.map_append, List.sum_append, List.map_cons, List.sum_cons,
        hchargeAlloc]
      have hchargeNf : bufCharge
          (⟨c.addr + hdrSize + (ALIGN d + ALIGN o), true, 0, 0, false⟩ :
            BinderBuffer) = 0 := by
        simp [bufCharge]
      rw [hchargeNf]
      by_cases hia : ia = true
      · have hg2 := hguard hia
        rw [if_pos hia, if_pos hia]
        omega
      · rw [if_neg hia, if_neg hia]
        omega
    · rw [hbuf]
      apply List.pairwise_append.mpr
      refine ⟨hp1, ?_, ?_⟩
      · apply List.pairwise_cons.mpr
        refine ⟨?_, ?_⟩
        · intro b hbm
          rcases List.mem_cons.mp hbm with hbm | hbm
          · subst hbm
            show c.addr + hdrSize ≤ c.addr + hdrSize + (ALIGN d + ALIGN o)
            omega
          · have := hcl2 b hbm
            exact this
        · apply List.pairwise_cons.mpr
          refine ⟨?_, hp2t⟩
          intro b hbm
          exact hkey.1 b hbm
      · intro x hx b hbm
        have hx1 := hl1c x hx
        rcases List.mem_cons.mp hbm with hbm | hbm
        · subst hbm
          exact hcross x hx c (List.mem_cons_self c l2)
        · rcases List.mem_cons.mp hbm with hbm | hbm
          · subst hbm
            show x.addr + hdrSize ≤ c.addr + hdrSize + (ALIGN d + ALIGN o)
            omega
          · exact hcross x hx b (List.mem_cons_of_mem c hbm)
    · intro b hbm
      rw [hbuf] at hbm
      rw [hbsz]
      rcases List.mem_append.mp hbm with hbm | hbm
      · exact hbound b (by rw [hdec]; exact List.mem_append_left _ hbm)
      · rcases List.mem_cons.mp hbm with hbm | hbm
        · subst hbm
          exact hbound c hcmemS
        · rcases List.mem_cons.mp hbm with hbm | hbm
          · subst hbm
            exact hkey.2
          · exact hbound b (by
              rw [hdec]
              exact List.mem_append_right _ (List.mem_cons_of_mem c hbm))

/-- Freeing preserves the arena invariant. -/
theorem allocInv_free (s : AllocState) (addr : Nat) (hinv : AllocInv s) :
    AllocInv (binder_free_buf s addr) := by
  obtain ⟨hsum, hpair, hbound⟩ := hinv
  rw [binder_free_buf]
  rcases hf : List.find? (fun b => decide (b.addr = addr)) s.buffers with _ | buffer
  · rw [hf]
    exact ⟨hsum, hpair, hbound⟩
  simp only [hf]
  by_cases hfree : buffer.free = true
  · rw [if_pos hfree]
    exact ⟨hsum, hpair, hbound⟩
  rw [if_neg hfree]
  have h80 : hdrSize = 80 := rfl
  have haddr : buffer.addr = addr := by simpa using List.find?_some hf
  obtain ⟨l1, l2, hdec, hl1p⟩ := find?_decomp _ _ _ hf
  have hpair2 := hpair
  rw [hdec] at hpair2
  obtain ⟨hp1, hp2, hcross⟩ := List.pairwise_append.mp hpair2
  obtain ⟨hcl2, hp2t⟩ := List.pairwise_cons.mp hp2
  have hl1c : ∀ b ∈ l1, b.addr + hdrSize ≤ buffer.addr :=
    fun b hbm => hcross b hbm buffer (List.mem_cons_self buffer l2)
  -- the freed-in-place list
  have hbs1 : s.buffers.map
      (fun b => if b.addr = addr then { b with free := true } else b)
      = l1 ++ ({ buffer with free := true } : BinderBuffer) :: l2 := by
    rw [hdec, List.map_append, List.map_cons]
    rw [map_eq_self _ l1 (fun b hbm => by
      rw [if_neg]
      have := hl1p b hbm
      simpa using this)]
    rw [if_pos haddr]
    rw [map_eq_self _ l2 (fun b hbm => by
      rw [if_neg]
      have := hcl2 b hbm
      omega)]
  have hpair1 : (l1 ++ ({ buffer with free := true } : BinderBuffer) :: l2).Pairwise
      (fun x y => x.addr + hdrSize ≤ y.addr) := by
    apply List.pairwise_append.mpr
    refine ⟨hp1, List.pairwise_cons.mpr ⟨fun b hbm => hcl2 b hbm, hp2t⟩, ?_⟩
    intro x hx b hbm
    rcases List.mem_cons.mp hbm with hbm | hbm
    · subst hbm
      exact hcross x hx buffer (List.mem_cons_self buffer l2)
    · exact hcross x hx b (List.mem_cons_of_mem buffer hbm)
  have hbound1 : ∀ b ∈ l1 ++ ({ buffer with free := true } : BinderBuffer) :: l2,
      b.addr + hdrSize ≤ s.buffer_size := by
    intro b hbm
    rcases List.mem_append.mp hbm with hbm | hbm
    · exact hbound b (by rw [hdec]; exact List.mem_append_left _ hbm)
    · rcases List.mem_cons.mp hbm with hbm | hbm
      · subst hbm
        exact hbound buffer (by
          rw [hdec]
          exact List.mem_append_right _ (List.mem_cons_self buffer l2))
      · exact hbound b (by
          rw [hdec]
          exact List.mem_append_right _ (List.mem_cons_of_mem buffer hbm))
  have hsum1 : ((l1 ++ ({ buffer with free := true } : BinderBuffer) :: l2).map
      bufCharge).sum = (l1.map bufCharge).sum + (l2.map bufCharge).sum := by
    simp [bufCharge]
  have hsum0 : s.free_async_space + ((l1.map bufCharge).sum +
      (bufCharge buffer + (l2.map bufCharge).sum)) = s.buffer_size / 2 := by
    have := hsum
    rw [asyncAllocatedSpace, hdec] at this
    simpa using this
  -- a generic builder: any sublist of the freed-in-place list with the same
  -- charge closes the invariant
  have build : ∀ L : List BinderBuffer,
      L.Sublist (l1 ++ ({ buffer with free := true } : BinderBuffer) :: l2) →
      (L.map bufCharge).sum = (l1.map bufCharge).sum + (l2.map bufCharge).sum →
      AllocInv
        { s with
          buffers := L,
          free_async_space :=
            if buffer.async_transaction = true then
              s.free_async_space +
                (ALIGN buffer.data_size + ALIGN buffer.offsets_size + hdrSize)
            else s.free_async_space } := by
    intro L hsub hsumL
    refine ⟨?_, ?_, ?_⟩
    · dsimp only [asyncAllocatedSpace]
      rw [hsumL]
      have hcharge : bufCharge buffer
          = if buffer.async_transaction = true then
              ALIGN buffer.data_size + ALIGN buffer.offsets_size + hdrSize
            else 0 := by
        simp only [bufCharge, Bool.not_eq_true] at hfree ⊢
        rw [hfree]
        cases buffer.async_transaction <;> simp
      by_cases hasync : buffer.async_transaction = true
      · rw [if_pos hasync]
        rw [if_pos hasync] at hcharge
        omega
      · rw [if_neg hasync]
        rw [if_neg hasync] at hcharge
        omega
    · exact hpair1.sublist hsub
    · intro b hbm
      exact hbound1 b (hsub.mem hbm)
  -- where the coalescing neighbours are
  have hnext : nextBuffer s addr = l2.head? := by
    rw [nextBuffer, hdec, List.find?_append]
    rw [List.find?_eq_none.mpr (fun b hbm => by
      have := hl1c b hbm
      simp
      omega)]
    rw [List.find?_cons_of_neg _ (by simp [haddr])]
    cases l2 with
    | nil => rfl
    | cons nxt rest =>
      rw [List.find?_cons_of_pos _ (by
        have := hcl2 nxt (List.mem_cons_self nxt rest)
        simp
        omega)]
      rfl
  have hprev : prevBuffer s addr = l1.getLast? := by
    rw [prevBuffer, hdec, List.filter_append, List.filter_cons_of_neg (by
      simp [haddr])]
    rw [List.filter_eq_self.mpr (fun b hbm => by
      have := hl1c b hbm
      simp
      omega)]
    rw [List.filter_eq_nil_iff.mpr (fun b hbm => by
      have := hcl2 b hbm
      simp
      omega)]
    rw [List.append_nil]
  rw [hbs1, hnext, hprev]
  -- case on the next neighbour
  cases hl2 : l2 with
  | nil =>
    subst hl2
    dsimp only [List.head?]
    cases hlast : l1.getLast? with
    | none =>
      dsimp only
      exact build _ (List.Sublist.refl _) hsum1
    | some prv =>
      dsimp only
      by_cases hpf : prv.free = true
      · rw [if_pos hpf]
        refine build _ ((List.filter_sublist _).trans (List.Sublist.refl _)) ?_
        rw [sum_filter_charge]
        · exact hsum1
        · intro b hbm hb
          simp at hb
          rcases List.mem_append.mp hbm with hbm | hbm
          · have := hl1c b hbm
            omega
          · rcases List.mem_cons.mp hbm with hbm | hbm
            · subst hbm
              simp [bufCharge]
            · simp at hbm
      · rw [if_neg hpf]
        exact build _ (List.Sublist.refl _) hsum1
  | cons nxt rest =>
    subst hl2
    dsimp only [List.head?]
    have hnxtgt := hcl2 nxt (List.mem_cons_self nxt rest)
    obtain ⟨hnr, -⟩ := List.pairwise_cons.mp hp2t
    by_cases hnf : nxt.free = true
    · rw [if_pos hnf]
      have hz1 : ∀ b ∈ l1 ++ ({ buffer with free := true } : BinderBuffer) ::
          nxt :: rest, (decide (b.addr ≠ nxt.addr)) = false → bufCharge b = 0 := by
        intro b hbm hb
        simp at hb
        rcases List.mem_append.mp hbm with hbm | hbm
        · have := hl1c b hbm
          omega
        · rcases List.mem_cons.mp hbm with hbm | hbm
          · subst hbm
            simp [bufCharge]
          · rcases List.mem_cons.mp hbm with hbm | hbm
            · subst hbm
              simp [bufCharge, hnf]
            · have := hnr b hbm
              omega
      have hsum2 : (((l1 ++ ({ buffer with free := true } : BinderBuffer) ::
          nxt :: rest).filter (fun b => b.addr ≠ nxt.addr)).map bufCharge).sum
          = (l1.map bufCharge).sum + ((nxt :: rest).map bufCharge).sum := by
        rw [sum_filter_charge _ _ hz1]
        exact hsum1
      have hnxtcharge : bufCharge nxt = 0 := by simp [bufCharge, hnf]
      cases hlast : l1.getLast? with
      | none =>
        dsimp only
        refine build _ (List.filter_sublist _) ?_
        rw [hsum2]
      | some prv =>
        dsimp only
        by_cases hpf : prv.free = true
        · rw [if_pos hpf]
          refine build _ ((List.filter_sublist _).trans (List.filter_sublist _)) ?_
          rw [sum_filter_charge]
          · rw [hsum2]
          · intro b hbm hb
            have hbm1 := List.mem_of_mem_filter hbm
            simp at hb
            rcases List.mem_append.mp hbm1 with hbm2 | hbm2
            · have := hl1c b hbm2
              omega
            · rcases List.mem_cons.mp hbm2 with hbm2 | hbm2
              · subst hbm2
                simp [bufCharge]
              · rcases List.mem_cons.mp hbm2 with hbm2 | hbm2
                · subst hbm2
                  omega
                · have := hnr b hbm2
                  omega
        · rw [if_neg hpf]
          refine build _ (List.filter_sublist _) ?_
          rw [hsum2]
    · rw [if_neg hnf]
      cases hlast : l1.getLast? with
      | none =>
        dsimp only
        exact build _ (List.Sublist.refl _) hsum1
      | some prv =>
        dsimp only
        by_cases hpf : prv.free = true
        · rw [if_pos hpf]
          refine build _ (List.filter_sublist _) ?_
          rw [sum_filter_charge]
          · exact hsum1
          · intro b hbm hb
            simp at hb
            rcases List.mem_append.mp hbm with hbm | hbm
            · have := hl1c b hbm
              omega
            · rcases List.mem_cons.mp hbm with hbm | hbm
              · subst hbm
                simp [bufCharge]
              · rcases List.mem_cons.mp hbm with hbm | hbm
                · subst hbm
                  omega
                · have := hnr b hbm
                  omega
        · rw [if_neg hpf]
          exact build _ (List.Sublist.refl _) hsum1

/-- Every reachable arena state satisfies the invariant. -/
theorem allocInv_reachable (s : AllocState) (h : AllocReachable s) :
    AllocInv s := by
  induction h with
  | init arena ha => exact allocInv_init arena ha
  | alloc s s' d o a ia _ hs ih => exact allocInv_alloc s s' d o a ia ih hs
  | free s addr _ ih => exact allocInv_free s addr ih

end Alloc

namespace Alloc

/-- C4: `free_async_space` is initialized to half the arena when it is
mapped; an async allocation of aligned payload size `S` fails whenever
`free_async_space < S + hdrSize`, and otherwise decreases it by exactly
`S + hdrSize`; freeing an allocated async buffer restores exactly that
amount; and on every reachable arena the total charge of allocated async
buffers never exceeds half the arena. -/
theorem C4_async_quota :
    (∀ arena : Nat, (binder_mmap_init arena).free_async_space = arena / 2) ∧
    (∀ (s : AllocState) (d o : Nat),
      s.free_async_space < ALIGN d + ALIGN o + hdrSize →
      binder_alloc_buf s d o true = none) ∧
    (∀ (s s' : AllocState) (d o a : Nat),
      binder_alloc_buf s d o true = some (s', a) →
      ALIGN d + ALIGN o + hdrSize ≤ s.free_async_space ∧
      s'.free_async_space + (ALIGN d + ALIGN o + hdrSize)
        = s.free_async_space) ∧
    (∀ (s : AllocState) (b : BinderBuffer),
      List.find? (fun c => decide (c.addr = b.addr)) s.buffers = some b →
      b.free = false → b.async_transaction = true →
      (binder_free_buf s b.addr).free_async_space
        = s.free_async_space +
          (ALIGN b.data_size + ALIGN b.offsets_size + hdrSize)) ∧
    (∀ s : AllocState, AllocReachable s →
      asyncAllocatedSpace s ≤ s.buffer_size / 2) := by
  refine ⟨?_, ?_, ?_, ?_, ?_⟩
  · intro arena
    rfl
  · intro s d o h
    rw [binder_alloc_buf, if_pos ⟨rfl, h⟩]
  · intro s s' d o a hs
    rw [binder_alloc_buf] at hs
    split at hs
    · cases hs
    next hg =>
      push_neg at hg
      have hge := hg rfl
      rcases hb : bestFit s (ALIGN d + ALIGN o) with _ | c
      · rw [hb] at hs
        cases hs
      rw [hb] at hs
      dsimp only at hs
      rw [Option.some_inj, Prod.mk.injEq] at hs
      obtain ⟨hst, -⟩ := hs
      refine ⟨hge, ?_⟩
      have hfas : s'.free_async_space
          = s.free_async_space - (ALIGN d + ALIGN o + hdrSize) := by
        rw [← hst]
        simp
      omega
  · intro s b hf hfree hasync
    rw [binder_free_buf]
    simp only [hf]
    rw [if_neg (by rw [hfree]; simp)]
    simp [hasync]
  · intro s hs
    have h := (allocInv_reachable s hs).1
    omega

/-- Witness for C4 at a concrete arena. -/
theorem C4_async_quota_witness :
    (binder_mmap_init 4096).free_async_space = 2048 ∧
    binder_alloc_buf (binder_mmap_init 4096) 4000 0 true = none := by
  constructor
  · exact C4_async_quota.1 4096
  · exact C4_async_quota.2.1 (binder_mmap_init 4096) 4000 0 (by decide)

/-- C5: allocation is a best-fit search — it picks a free block of minimal
size at least `S = ALIGN data + ALIGN offsets` and fails with no-space iff
none exists; when the chosen block's remainder cannot hold another header
plus at least 4 bytes of payload the whole block is absorbed, and otherwise
the block is split, a fresh free header is placed at `data start + S` and
linked right after the chosen block in the address-ordered list.  The
divisibility hypotheses state the pointer alignment every reachable arena
maintains (`hdrSize` itself is a multiple of 8). -/
theorem C5_best_fit_alloc (s : AllocState) (d o : Nat) (ia : Bool)
    (hpair : s.buffers.Pairwise (fun x y => x.addr + hdrSize ≤ y.addr))
    (hdiv : ∀ b ∈ s.buffers, b.addr % 8 = 0)
    (hdivsz : s.buffer_size % 8 = 0)
    (hasync : ¬(ia = true ∧
      s.free_async_space < ALIGN d + ALIGN o + hdrSize)) :
    (binder_alloc_buf s d o ia = none ↔
      ∀ b ∈ s.buffers, b.free = true →
        binder_buffer_size s b < ALIGN d + ALIGN o) ∧
    (∀ s' a, binder_alloc_buf s d o ia = some (s', a) →
      ∃ c, bestFit s (ALIGN d + ALIGN o) = some c ∧ a = c.addr ∧
        c ∈ s.buffers ∧ c.free = true ∧
        ALIGN d + ALIGN o ≤ binder_buffer_size s c ∧
        (∀ b ∈ s.buffers, b.free = true →
          ALIGN d + ALIGN o ≤ binder_buffer_size s b →
          binder_buffer_size s c ≤ binder_buffer_size s b) ∧
        ((binder_buffer_size s c - (ALIGN d + ALIGN o) < hdrSize + 4 →
          ∃ l1 l2, s.buffers = l1 ++ c :: l2 ∧
            s'.buffers = l1 ++
              ({ c with free := false, data_size := d, offsets_size := o,
                        async_transaction := ia } : BinderBuffer) :: l2) ∧
         (hdrSize + 4 ≤ binder_buffer_size s c - (ALIGN d + ALIGN o) →
          ∃ l1 l2, s.buffers = l1 ++ c :: l2 ∧
            s'.buffers = l1 ++
              ({ c with free := false, data_size := d, offsets_size := o,
                        async_transaction := ia } : BinderBuffer) ::
              (⟨c.addr + hdrSize + (ALIGN d + ALIGN o), true, 0, 0, false⟩ :
                BinderBuffer) :: l2))) := by
  have h80 : hdrSize = 80 := rfl
  have hS8 : (ALIGN d + ALIGN o) % 8 = 0 := by
    have h1 : ALIGN d = (d + 7) / 8 * 8 := rfl
    have h2 : ALIGN o = (o + 7) / 8 * 8 := rfl
    omega
  constructor
  · constructor
    · intro hs
      rw [binder_alloc_buf, if_neg hasync] at hs
      rcases hb : bestFit s (ALIGN d + ALIGN o) with _ | c
      · exact (bestFit_spec s (ALIGN d + ALIGN o)).1.mp hb
      · rw [hb] at hs
        dsimp only at hs
        cases hs
    · intro h
      rw [binder_alloc_buf, if_neg hasync,
        (bestFit_spec s (ALIGN d + ALIGN o)).1.mpr h]
  · intro s' a hs
    obtain ⟨c, l1, l2, hb, ha, hdec, hbsz, hfas, hbuf⟩ :=
      binder_alloc_buf_some s s' d o a ia hpair hs
    obtain ⟨hcmem, hcfree, hcge, hcmin⟩ :=
      (bestFit_spec s (ALIGN d + ALIGN o)).2 c hb
    -- 8-divisibility of the chosen block's size
    have hpair2 := hpair
    rw [hdec] at hpair2
    obtain ⟨hp1, hp2, hcross⟩ := List.pairwise_append.mp hpair2
    obtain ⟨hcl2, hp2t⟩ := List.pairwise_cons.mp hp2
    have horig := buffer_size_decomp s l1 l2 c hdec
      (fun b hbm => by
        have := hcross b hbm c (List.mem_cons_self c l2)
        omega)
      (fun b hbm => by
        have := hcl2 b hbm
        omega)
    have hcaddr8 : c.addr % 8 = 0 := hdiv c hcmem
    have hmod : binder_buffer_size s c % 8 = 0 := by
      cases l2 with
      | nil =>
        simp only [List.head?, Option.elim] at horig
        omega
      | cons nxt rest =>
        simp only [List.head?, Option.elim] at horig
        have hn8 : nxt.addr % 8 = 0 := hdiv nxt (by
          rw [hdec]
          exact List.mem_append_right _
            (List.mem_cons_of_mem c (List.mem_cons_self nxt rest)))
        have := hcl2 nxt (List.mem_cons_self nxt rest)
        omega
    refine ⟨c, hb, ha, hcmem, hcfree, hcge, hcmin, ?_, ?_⟩
    · intro hrem
      rcases hbuf with ⟨h84, hbuf⟩ | ⟨h84, hbuf⟩
      · exact ⟨l1, l2, hdec, hbuf⟩
      · omega
    · intro hrem
      rcases hbuf with ⟨h84, hbuf⟩ | ⟨h84, hbuf⟩
      · omega
      · exact ⟨l1, l2, hdec, hbuf⟩

/-- Witness for C5 at a concrete arena: a request larger than the only free
block fails with no-space. -/
theorem C5_best_fit_alloc_witness :
    binder_alloc_buf (binder_mmap_init 4096) 5000 0 false = none :=
  (C5_best_fit_alloc (binder_mmap_init 4096) 5000 0 false (by decide)
    (by decide) (by decide) (by decide)).1.mpr (by decide)

end Alloc

/-! ## C6: target resolution failures -/

/-- C6: a `BC_TRANSACTION` whose nonzero target handle has no reference in
the sending process fails at the invalid-target-handle site (whose recorded
return code is `BR_FAILED_REPLY`); a call whose resolved target node — via a
handle or via the context manager — has no owning process fails with
`BR_DEAD_REPLY`; and a `BC_REPLY` whose original caller thread no longer
exists (`in_reply_to->from == NULL`) fails with `BR_DEAD_REPLY`. -/
theorem C6_target_resolution :
    (∀ (refs : List Resolve.RefToNode) (ctx : Option Resolve.NodeOwner)
        (h : Nat),
      h ≠ 0 → refs.find? (fun r => r.desc = h) = none →
      Resolve.resolveCallTarget refs ctx h = .error .errInvalidTargetHandle ∧
      Resolve.returnErrorOf .errInvalidTargetHandle = .BR_FAILED_REPLY) ∧
    (∀ (refs : List Resolve.RefToNode) (ctx : Option Resolve.NodeOwner)
        (h : Nat) (r : Resolve.RefToNode),
      h ≠ 0 → refs.find? (fun r' => r'.desc = h) = some r →
      r.node.owner = none →
      Resolve.resolveCallTarget refs ctx h = .error .errDeadBinder ∧
      Resolve.returnErrorOf .errDeadBinder = .BR_DEAD_REPLY) ∧
    (∀ (refs : List Resolve.RefToNode) (n : Resolve.NodeOwner),
      n.owner = none →
      Resolve.resolveCallTarget refs (some n) 0 = .error .errDeadBinder) ∧
    (∀ (selfTid : Nat) (top : Resolve.ReplyFrame)
        (rest : List Resolve.ReplyFrame)
        (stackOf : Nat → List Resolve.ReplyFrame),
      top.to_thread = some selfTid → top.from_thread = none →
      Resolve.resolveReplyTarget selfTid (top :: rest) stackOf
        = .error .errDeadBinder ∧
      Resolve.returnErrorOf .errDeadBinder = .BR_DEAD_REPLY) := by
  refine ⟨?_, ?_, ?_, ?_⟩
  · intro refs ctx h hne hfind
    exact ⟨by simp [Resolve.resolveCallTarget, hne, hfind], rfl⟩
  · intro refs ctx h r hne hfind howner
    exact ⟨by simp [Resolve.resolveCallTarget, hne, hfind, howner], rfl⟩
  · intro refs n howner
    simp [Resolve.resolveCallTarget, howner]
  · intro selfTid top rest stackOf hto hfrom
    exact ⟨by simp [Resolve.resolveReplyTarget, hto, hfrom], rfl⟩

/-- Witness for C6 at concrete states. -/
theorem C6_target_resolution_witness :
    Resolve.resolveCallTarget [] none 5 = .error .errInvalidTargetHandle ∧
    Resolve.resolveCallTarget [⟨5, ⟨42, none⟩⟩] none 5
      = .error .errDeadBinder ∧
    Resolve.resolveReplyTarget 3 [⟨9, some 3, none⟩] (fun _ => [])
      = .error .errDeadBinder := by
  refine ⟨(C6_target_resolution.1 [] none 5 (by decide) rfl).1, ?_, ?_⟩
  · exact (C6_target_resolution.2.1 [⟨5, ⟨42, none⟩⟩] none 5 ⟨5, ⟨42, none⟩⟩
      (by decide) rfl rfl).1
  · exact (C6_target_resolution.2.2.2 3 ⟨9, some 3, none⟩ [] (fun _ => [])
      rfl rfl).1

/-! ## C7: death-notification delivery is at most once per cookie -/

/-- On every reachable subscription state the delivery potential — dead
records already read plus a queued dead item — is at most 1, and it is 0
while the node is alive. -/
theorem death_potential_invariant (s : Death.DeathState)
    (h : Death.DeathReachable s) :
    Death.deadPotential s ≤ 1 ∧
      (s.nodeDead = false → Death.deadPotential s = 0) := by
  induction h with
  | registerLive => simp [Death.deadPotential]
  | registerDead => simp [Death.deadPotential]
  | step s' s2 op _ hstep ih =>
    cases op with
    | die =>
      rw [Death.deathStep] at hstep
      split at hstep
      · next hg =>
        obtain ⟨hg1, hg2, hg3⟩ := hg
        cases hstep
        have h0 := ih.2 (by simpa using hg2)
        simp [Death.deadPotential, hg3] at h0 ⊢
        omega
      · cases hstep
    | deliver =>
      rw [Death.deathStep] at hstep
      split at hstep
      · next hg =>
        split at hstep
        · next hk =>
          cases hstep
          refine ⟨?_, ?_⟩
          · simpa [Death.deadPotential, hg, hk] using ih.1
          · intro hn
            have h2 := ih.2 hn
            simpa [Death.deadPotential, hg, hk] using h2
        · next hk =>
          cases hstep
          have h1 := ih.1
          simp [Death.deadPotential, hg, hk] at h1
          refine ⟨?_, ?_⟩
          · simp [Death.deadPotential]
            omega
          · intro hn
            have h2 := ih.2 hn
            simp [Death.deadPotential, hg, hk] at h2
      · cases hstep
    | clear =>
      rw [Death.deathStep] at hstep
      split at hstep
      · split at hstep
        · next hloc =>
          cases hstep
          constructor
          · simpa [Death.deadPotential, hloc] using ih.1
          · intro hn
            have := ih.2 hn
            simpa [Death.deadPotential, hloc] using this
        · split at hstep
          · next hk =>
            cases hstep
            constructor
            · simpa [Death.deadPotential, hk] using ih.1
            · intro hn
              have := ih.2 hn
              simpa [Death.deadPotential, hk] using this
          · cases hstep
      · cases hstep
    | ack =>
      rw [Death.deathStep] at hstep
      split at hstep
      · next hloc =>
        split at hstep
        · cases hstep
          constructor
          · simpa [Death.deadPotential, hloc] using ih.1
          · intro hn
            have := ih.2 hn
            simpa [Death.deadPotential, hloc] using this
        · cases hstep
          constructor
          · simpa [Death.deadPotential, hloc] using ih.1
          · intro hn
            have := ih.2 hn
            simpa [Death.deadPotential, hloc] using this
      · cases hstep

/-- C7: each subscription's `BR_DEAD_BINDER` is read at most once.  On
delivery a dead-binder work item moves to `delivered_death` awaiting the
explicit ack; a `BC_CLEAR_DEATH_NOTIFICATION` issued while the work item is
still linked promotes its kind to DEAD_AND_CLEAR in place instead of
queueing a new item; a `BC_DEAD_BINDER_DONE` on a DEAD_AND_CLEAR entry
requeues it exactly once, as a CLEAR_DEATH_NOTIFICATION item whose delivery
emits the clear-done record (never a second dead-binder); and on every
reachable state at most one `BR_DEAD_BINDER` has been read. -/
theorem C7_death_notification :
    (∀ s : Death.DeathState, s.loc = .onTodo → s.kind ≠ .clearNotification →
      Death.deathStep s .deliver
        = some { s with loc := .onDelivered,
                        deadEmitted := s.deadEmitted + 1 }) ∧
    (∀ s : Death.DeathState, s.refDeathSet = true → s.loc ≠ .unlinked →
      s.kind = .deadBinder →
      Death.deathStep s .clear
        = some { s with refDeathSet := false,
                        kind := .deadBinderAndClear }) ∧
    (∀ s : Death.DeathState, s.loc = .onDelivered →
      s.kind = .deadBinderAndClear →
      Death.deathStep s .ack
        = some { s with kind := .clearNotification, loc := .onTodo }) ∧
    (∀ s : Death.DeathState, s.loc = .onTodo → s.kind = .clearNotification →
      Death.deathStep s .deliver
        = some { s with loc := .freed,
                        clearDoneEmitted := s.clearDoneEmitted + 1 }) ∧
    (∀ s : Death.DeathState, Death.DeathReachable s → s.deadEmitted ≤ 1) := by
  refine ⟨?_, ?_, ?_, ?_, ?_⟩
  · intro s h1 h2; simp [Death.deathStep, h1, h2]
  · intro s h1 h2 h3; simp [Death.deathStep, h1, h2, h3]
  · intro s h1 h2
    simp [Death.deathStep, h1, h2]
  · intro s h1 h2; simp [Death.deathStep, h1, h2]
  · intro s hs
    have h := death_potential_invariant s hs
    have := h.1
    simp [Death.deadPotential] at this
    omega

/-- Witness for C7 at a concrete subscription state. -/
theorem C7_death_notification_witness :
    Death.deathStep ⟨true, true, .deadBinder, .onTodo, 0, 0⟩ .deliver
      = some ⟨true, true, .deadBinder, .onDelivered, 1, 0⟩ ∧
    Death.deathStep ⟨true, true, .deadBinder, .onDelivered, 1, 0⟩ .clear
      = some ⟨false, true, .deadBinderAndClear, .onDelivered, 1, 0⟩ ∧
    Death.deathStep ⟨false, true, .deadBinderAndClear, .onDelivered, 1, 0⟩ .ack
      = some ⟨false, true, .clearNotification, .onTodo, 1, 0⟩ := by
  refine ⟨?_, ?_, ?_⟩
  · exact C7_death_notification.1 ⟨true, true, .deadBinder, .onTodo, 0, 0⟩
      rfl (by decide)
  · exact C7_death_notification.2.1
      ⟨true, true, .deadBinder, .onDelivered, 1, 0⟩ rfl (by decide) rfl
  · exact C7_death_notification.2.2.1
      ⟨false, true, .deadBinderAndClear, .onDelivered, 1, 0⟩ rfl rfl

/-- Witness for C2 at a concrete node state. -/
theorem C2_async_serialization_witness :
    asyncTransactionEnqueue ⟨true, [4], [], [], 1⟩ 9
      = (⟨true, [4, 9], [], [], 1⟩, false) ∧
    freeBufferAsyncStep ⟨true, [4, 9], [], [], 1⟩
      = ⟨true, [9], [], [4], 1⟩ := by
  constructor
  · exact C2_async_serialization.1 ⟨true, [4], [], [], 1⟩ 9 rfl
  · exact C2_async_serialization.2.2.2.1 ⟨true, [4, 9], [], [], 1⟩ 4 [9] rfl

namespace Trans

open Resolve (BrCode)

/-- `counters` ignores a node-table update. -/
theorem counters_updateNode (s : St) (nid : Nat) (f : Node → Node) :
    counters (updateNode s nid f) = counters s := rfl

/-- `counters` ignores a reference-table update. -/
theorem counters_updateRef (s : St) (pid d : Nat) (f : Ref → Ref) :
    counters (updateRef s pid d f) = counters s := rfl

/-- `counters` ignores replacing the node list. -/
theorem counters_setNodes (s : St) (l : List Node) :
    counters { s with nodes := l } = counters s := rfl

/-- `counters` ignores replacing the reference list. -/
theorem counters_setRefs (s : St) (l : List Ref) :
    counters { s with refs := l } = counters s := rfl

/-- `binder_inc_node` does not touch the allocation counters. -/
theorem counters_inc_node (s : St) (nid : Nat) (st it tl : Bool) :
    counters (binder_inc_node s nid st it tl).1 = counters s := by
  rw [binder_inc_node]
  rcases getNodeById s nid with _ | nd
  · rfl
  · dsimp only
    split_ifs <;> rfl

/-- The post-decrement phase of `binder_dec_node` does not touch the
allocation counters. -/
theorem counters_dec_node_post (s : St) (nid : Nat) (st : Bool) :
    counters (binder_dec_node_post s nid st) = counters s := by
  rw [binder_dec_node_post]
  rcases getNodeById s nid with _ | nd
  · rfl
  · dsimp only
    split_ifs <;> rfl

/-- `binder_dec_node` does not touch the allocation counters. -/
theorem counters_dec_node (s : St) (nid : Nat) (st it : Bool) :
    counters (binder_dec_node s nid st it) = counters s := by
  rw [binder_dec_node]
  rcases getNodeById s nid with _ | nd
  · rfl
  · dsimp only
    rw [counters_dec_node_post]
    split_ifs <;> rfl

/-- `binder_get_ref_for_node` does not touch the allocation counters. -/
theorem counters_get_ref_for_node (s : St) (pid nid : Nat) :
    counters (binder_get_ref_for_node_t s pid nid).1 = counters s := by
  rw [binder_get_ref_for_node_t]
  rcases h : s.refs.find? (fun r => r.procId = pid && r.nid = nid) with _ | r <;>
    rw [h]
  rfl

/-- `binder_inc_ref` does not touch the allocation counters. -/
theorem counters_inc_ref (s : St) (pid d : Nat) (st tl : Bool) :
    counters (binder_inc_ref s pid d st tl).1 = counters s := by
  rw [binder_inc_ref]
  rcases binder_get_ref s pid d with _ | ref
  · rfl
  · dsimp only
    have h1 := counters_inc_node s ref.nid true true tl
    have h2 := counters_inc_node s ref.nid false true tl
    rcases e1 : binder_inc_node s ref.nid true true tl with ⟨s1, b1⟩
    rcases e2 : binder_inc_node s ref.nid false true tl with ⟨s2, b2⟩
    rw [e1] at h1
    rw [e2] at h2
    simp only [e1, e2]
    split_ifs <;> simp_all [counters_updateRef]

/-- `binder_delete_ref` does not touch the allocation counters. -/
theorem counters_delete_ref (s : St) (pid d : Nat) :
    counters (binder_delete_ref_t s pid d) = counters s := by
  rw [binder_delete_ref_t]
  rcases binder_get_ref s pid d with _ | ref
  · rfl
  · dsimp only
    rw [counters_dec_node, counters_setRefs]
    split_ifs <;> simp [counters_dec_node]

/-- `binder_dec_ref` does not touch the allocation counters. -/
theorem counters_dec_ref (s : St) (pid d : Nat) (st : Bool) :
    counters (binder_dec_ref_t s pid d st).1 = counters s := by
  rw [binder_dec_ref_t]
  rcases binder_get_ref s pid d with _ | ref
  · rfl
  · dsimp only
    split_ifs <;>
      simp [counters_delete_ref, counters_dec_node, counters_updateRef]

/-- A successful entry translation does not touch the allocation
counters. -/
theorem counters_translate_entry (p : TParams) (s : St) (fp : FlatObj)
    (s' : St) (fp' : FlatObj) (a : TAction)
    (h : translate_entry p s fp = Except.ok (s', fp', a)) :
    counters s' = counters s := by
  cases fp with
  | binderObj strong ptr cookie flags =>
    simp only [translate_entry] at h
    rcases hg : binder_get_node s p.senderId ptr with _ | node
    all_goals rw [hg] at h
    all_goals (try simp only [binder_new_node] at h)
    all_goals split at h
    case none.isTrue => exact Except.noConfusion h
    case some.isTrue => exact Except.noConfusion h
    case none.isFalse =>
      injection h with h'
      rw [Prod.mk.injEq, Prod.mk.injEq] at h'
      obtain ⟨hs, -, -⟩ := h'
      subst hs
      rw [counters_inc_ref, counters_get_ref_for_node]
      rfl
    case some.isFalse =>
      injection h with h'
      rw [Prod.mk.injEq, Prod.mk.injEq] at h'
      obtain ⟨hs, -, -⟩ := h'
      subst hs
      rw [counters_inc_ref, counters_get_ref_for_node]
  | handleObj strong handle =>
    simp only [translate_entry] at h
    rcases hg : binder_get_ref s p.senderId handle with _ | ref
    · rw [hg] at h
      exact Except.noConfusion h
    rw [hg] at h
    dsimp only at h
    rcases hn : getNodeById s ref.nid with _ | node
    · rw [hn] at h
      exact Except.noConfusion h
    rw [hn] at h
    dsimp only at h
    split at h
    · injection h with h'
      rw [Prod.mk.injEq, Prod.mk.injEq] at h'
      obtain ⟨hs, -, -⟩ := h'
      subst hs
      exact counters_inc_node s node.nid strong false false
    · injection h with h'
      rw [Prod.mk.injEq, Prod.mk.injEq] at h'
      obtain ⟨hs, -, -⟩ := h'
      subst hs
      rw [counters_inc_ref, counters_get_ref_for_node]
  | fdObj fd =>
    simp only [translate_entry] at h
    split_ifs at h
    all_goals injection h with h'
    all_goals rw [Prod.mk.injEq, Prod.mk.injEq] at h'
    all_goals obtain ⟨hs, -, -⟩ := h'
    all_goals subst hs
    all_goals rfl
  | badObj => exact Except.noConfusion h

/-- The translation loop does not touch the allocation counters, in either
outcome. -/
theorem counters_translateLoop (p : TParams) (objs : List FlatObj) :
    ∀ s : St,
    (∀ s' rews acts, translateLoop p s objs = .ok s' rews acts →
       counters s' = counters s) ∧
    (∀ s' k rews acts e, translateLoop p s objs = .fail s' k rews acts e →
       counters s' = counters s) := by
  induction objs with
  | nil =>
    intro s
    constructor
    · intro s' rews acts h
      simp only [translateLoop] at h
      injection h with h1 h2 h3
      subst h1
      rfl
    · intro s' k rews acts e h
      simp only [translateLoop] at h
      exact LoopResult.noConfusion h
  | cons fp rest ih =>
    intro s
    constructor
    · intro s' rews acts h
      simp only [translateLoop] at h
      rcases he : translate_entry p s fp with err | ⟨s1, fp1, a1⟩
      · rw [he] at h
        exact LoopResult.noConfusion h
      rw [he] at h
      dsimp only at h
      rcases hr : translateLoop p s1 rest with ⟨s2, rws2, as2⟩ |
          ⟨s2, k2, rws2, as2, e2⟩
      · rw [hr] at h
        dsimp only at h
        injection h with h1 h2 h3
        subst h1
        rw [(ih s1).1 s2 rws2 as2 hr,
            counters_translate_entry p s fp s1 fp1 a1 he]
      · rw [hr] at h
        exact LoopResult.noConfusion h
    · intro s' k rews acts e h
      simp only [translateLoop] at h
      rcases he : translate_entry p s fp with err | ⟨s1, fp1, a1⟩
      · rw [he] at h
        dsimp only at h
        injection h with h1 h2 h3 h4 h5
        subst h1
        rfl
      rw [he] at h
      dsimp only at h
      rcases hr : translateLoop p s1 rest with ⟨s2, rws2, as2⟩ |
          ⟨s2, k2, rws2, as2, e2⟩
      · rw [hr] at h
        exact LoopResult.noConfusion h
      · rw [hr] at h
        dsimp only at h
        injection h with h1 h2 h3 h4 h5
        subst h1
        rw [(ih s1).2 s2 k2 rws2 as2 e2 hr,
            counters_translate_entry p s fp s1 fp1 a1 he]

/-- A failing translation loop has rewritten exactly the `k` entries before
the failing offset. -/
theorem translateLoop_fail_facts (p : TParams) (objs : List FlatObj) :
    ∀ (s s' : St) (k : Nat) (rews : List FlatObj) (acts : List TAction)
      (e : Option BrCode),
    translateLoop p s objs = .fail s' k rews acts e →
    rews.length = k ∧ acts.length = k ∧ k ≤ objs.length := by
  induction objs with
  | nil =>
    intro s s' k rews acts e h
    simp only [translateLoop] at h
    exact LoopResult.noConfusion h
  | cons fp rest ih =>
    intro s s' k rews acts e h
    simp only [translateLoop] at h
    rcases he : translate_entry p s fp with err | ⟨s1, fp1, a1⟩
    · rw [he] at h
      dsimp only at h
      injection h with h1 h2 h3 h4 h5
      subst h2
      subst h3
      subst h4
      simp
    rw [he] at h
    dsimp only at h
    rcases hr : translateLoop p s1 rest with ⟨s2, rws2, as2⟩ |
        ⟨s2, k2, rws2, as2, e2⟩
    · rw [hr] at h
      exact LoopResult.noConfusion h
    · rw [hr] at h
      dsimp only at h
      injection h with h1 h2 h3 h4 h5
      obtain ⟨l1, l2, l3⟩ := ih s1 s2 k2 rws2 as2 e2 hr
      subst h2
      subst h3
      subst h4
      refine ⟨?_, ?_, ?_⟩
      · simp [l1]
      · simp [l2]
      · simp only [List.length_cons]
        omega

/-- One release step does not touch the allocation counters. -/
theorem counters_release_entry (s : St) (tid : Nat) (cf : Bool)
    (fp : FlatObj) :
    counters (release_entry s tid cf fp).1 = counters s := by
  cases fp with
  | binderObj strong ptr cookie flags =>
    simp only [release_entry]
    rcases binder_get_node s tid ptr with _ | node
    · rfl
    · dsimp only
      rw [counters_dec_node]
  | handleObj strong handle =>
    simp only [release_entry]
    rcases binder_get_ref s tid handle with _ | ref
    · rfl
    · dsimp only
      rw [counters_dec_ref]
  | fdObj fd =>
    simp only [release_entry]
    split_ifs <;> rfl
  | badObj => rfl

/-- The release walk does not touch the allocation counters. -/
theorem counters_releaseLoop (tid : Nat) (cf : Bool)
    (entries : List FlatObj) :
    ∀ s : St, counters (releaseLoop tid cf s entries).1 = counters s := by
  induction entries with
  | nil => intro s; rfl
  | cons fp rest ih =>
    intro s
    simp only [releaseLoop]
    have h1 := counters_release_entry s tid cf fp
    rcases he : release_entry s tid cf fp with ⟨s1, a1⟩
    rw [he] at h1
    have h2 := ih s1
    rcases hr : releaseLoop tid cf s1 rest with ⟨s2, as2⟩
    rw [hr] at h2
    dsimp only at h1 h2 ⊢
    rw [h2, h1]

/-- `binder_transaction_buffer_release` does not touch the allocation
counters. -/
theorem counters_buffer_release (s : St) (tid : Nat) (tn : Option Nat)
    (entries : List FlatObj) (cf : Bool) :
    counters (binder_transaction_buffer_release s tid tn entries cf).1
      = counters s := by
  simp only [binder_transaction_buffer_release]
  rcases tn with _ | nid
  · exact counters_releaseLoop tid cf entries s
  · dsimp only
    rw [counters_releaseLoop, counters_dec_node]

/-- The prologue accounts for exactly one transaction struct, one completion
work item and one buffer. -/
theorem counters_transPrologue (s : St) (p : TParams) :
    counters (transPrologue s p)
      = (s.transactionsAlive + 1, s.completionsAlive + 1,
         s.buffersAlive + 1) := by
  rw [transPrologue]
  rcases p.targetNode with _ | nid
  · rfl
  · dsimp only
    rw [counters_inc_node]
    rfl

/-- Characterization of a failed translation stage: the unwind ran
`binder_transaction_buffer_release` with `failed_at` over exactly the `k`
rewritten entries, the three allocations are freed again, and the error is
recorded for the sender (propagated through `binder_send_failed_reply`
after a `BR_TRANSACTION_COMPLETE` for a reply). -/
theorem transaction_failure_decomp
    (s : St) (errs : Nat → ErrSlots) (p : TParams) (stid : Nat)
    (irt : Option FChain) (objs : List FlatObj) (s2 : St)
    (errs2 : Nat → ErrSlots) (k : Nat) (rel : List FlatObj)
    (racts : List RAction) (e : Option BrCode)
    (h : binder_transaction_objects s errs p stid irt objs
          = .failure s2 errs2 k rel racts e) :
    rel.length = k ∧ k ≤ objs.length ∧
    counters s2 = counters s ∧
    (∃ sL acts,
      translateLoop p (transPrologue s p) objs = .fail sL k rel acts e ∧
      racts = (binder_transaction_buffer_release sL p.targetId p.targetNode
                 rel true).2) ∧
    (irt = none → errs2 = fun t =>
       if t = stid then { errs t with return_error := e } else errs t) ∧
    (∀ chain, irt = some chain → errs2 =
       binder_send_failed_reply
         (fun t => if t = stid then
            { errs t with return_error := some BrCode.BR_TRANSACTION_COMPLETE }
          else errs t) chain e) := by
  rw [binder_transaction_objects] at h
  rcases hL : translateLoop p (transPrologue s p) objs with
      ⟨sO, rws, acts⟩ | ⟨sL, kL, rws, actsL, eL⟩
  · rw [hL] at h
    exact TOutcome.noConfusion h
  rw [hL] at h
  dsimp only at h
  have hcnt : counters
      (binder_transaction_buffer_release sL p.targetId p.targetNode rws
        true).1 = (s.transactionsAlive + 1, s.completionsAlive + 1,
                   s.buffersAlive + 1) := by
    rw [counters_buffer_release,
        (counters_translateLoop p objs (transPrologue s p)).2 sL kL rws actsL
          eL hL, counters_transPrologue]
  obtain ⟨l1, l2, l3⟩ :=
    translateLoop_fail_facts p objs (transPrologue s p) sL kL rws actsL eL hL
  rcases irt with _ | chain
  · dsimp only at h
    injection h with h1 h2 h3 h4 h5 h6
    subst h3
    subst h4
    subst h5
    subst h6
    refine ⟨l1, l3, ?_, ⟨sL, actsL, rfl, rfl⟩, fun _ => h2.symm,
            fun ch hc => Option.noConfusion hc⟩
    rw [← h1]
    simp only [counters, Prod.mk.injEq] at hcnt ⊢
    obtain ⟨a1, a2, a3⟩ := hcnt
    refine ⟨?_, ?_, ?_⟩ <;> omega
  · dsimp only at h
    injection h with h1 h2 h3 h4 h5 h6
    subst h3
    subst h4
    subst h5
    subst h6
    refine ⟨l1, l3, ?_, ⟨sL, actsL, rfl, rfl⟩,
            fun hc => Option.noConfusion hc, ?_⟩
    · rw [← h1]
      simp only [counters, Prod.mk.injEq] at hcnt ⊢
      obtain ⟨a1, a2, a3⟩ := hcnt
      refine ⟨?_, ?_, ?_⟩ <;> omega
    · intro ch hc
      injection hc with hc'
      subst hc'
      exact h2.symm

/-- A translated fd entry is undone exactly by its release step: the fd the
broker installed is closed again, restoring the target's fd table. -/
theorem fd_translate_release (p : TParams) (s : St) (fd : Nat)
    (s' : St) (fp' : FlatObj) (a : TAction)
    (hfd : ∀ f ∈ s.targetFds, f < s.nextFd)
    (h : translate_entry p s (.fdObj fd) = Except.ok (s', fp', a)) :
    fp' = FlatObj.fdObj s.nextFd ∧ a = TAction.installFdAct s.nextFd ∧
    release_entry s' p.targetId true fp'
      = ({ s' with targetFds := s.targetFds }, some (invAction a)) := by
  have hfil : (s.targetFds ++ [s.nextFd]).filter (fun x => x ≠ s.nextFd)
      = s.targetFds := by
    rw [List.filter_append]
    have h1 : s.targetFds.filter (fun x => x ≠ s.nextFd) = s.targetFds :=
      List.filter_eq_self.mpr (fun f hf => by
        simp only [decide_eq_true_eq]
        exact Nat.ne_of_lt (hfd f hf))
    have h2 : [s.nextFd].filter (fun x => x ≠ s.nextFd) = [] := by simp
    rw [h1, h2, List.append_nil]
  simp only [translate_entry] at h
  split_ifs at h
  all_goals injection h with h'
  all_goals rw [Prod.mk.injEq, Prod.mk.injEq] at h'
  all_goals obtain ⟨hs, hfp, ha⟩ := h'
  all_goals subst hs
  all_goals subst hfp
  all_goals subst ha
  all_goals refine ⟨rfl, rfl, ?_⟩
  all_goals simp only [release_entry, invAction, if_true]
  all_goals rw [hfil]

/-- C1: when object translation fails at offset `k`, the unwind walks
exactly the `k` already-rewritten entries (the released list is the
rewritten prefix, of length `k`), frees the transaction struct, the
completion work item and the target-side buffer (the three allocation
counters return to their initial values), hands exactly that prefix to
`binder_transaction_buffer_release` with `failed_at` set, undoes an
installed fd entry exactly (closing the fd restores the target's fd
table), and records the failure for the sender: a reply sets the sender's
`return_error` to BR_TRANSACTION_COMPLETE and propagates the value through
`binder_send_failed_reply`, a non-reply stores the value in the sender's
`return_error`.  The recorded value, however, is not always an error code:
on the cookie-mismatch path (binder.c:1827-1834) the C code jumps to the
unwind without ever assigning the local `return_error`, modelled by the
indeterminate marker `none` — the concrete cookie-mismatch run fails at
offset 0 and leaves the sender's slot holding no error code, diverging
from the claim's "records the error code". -/
theorem C1_failure_unwind :
    (∀ (p : TParams) (objs : List FlatObj) (t t' : St) (k : Nat)
       (rews : List FlatObj) (acts : List TAction) (e : Option BrCode),
       translateLoop p t objs = .fail t' k rews acts e →
       rews.length = k ∧ acts.length = k ∧ k ≤ objs.length) ∧
    (∀ (s : St) (errs : Nat → ErrSlots) (p : TParams) (stid : Nat)
       (irt : Option FChain) (objs : List FlatObj) (s2 : St)
       (errs2 : Nat → ErrSlots) (k : Nat) (rel : List FlatObj)
       (racts : List RAction) (e : Option BrCode),
       binder_transaction_objects s errs p stid irt objs
         = .failure s2 errs2 k rel racts e →
       rel.length = k ∧ k ≤ objs.length ∧
       counters s2 = counters s ∧
       (∃ sL acts,
         translateLoop p (transPrologue s p) objs = .fail sL k rel acts e ∧
         racts = (binder_transaction_buffer_release sL p.targetId
                    p.targetNode rel true).2) ∧
       (irt = none → errs2 = fun t =>
          if t = stid then { errs t with return_error := e } else errs t) ∧
       (∀ chain, irt = some chain → errs2 =
          binder_send_failed_reply
            (fun t => if t = stid then
               { errs t with
                   return_error := some BrCode.BR_TRANSACTION_COMPLETE }
             else errs t) chain e)) ∧
    (∀ (p : TParams) (t : St) (fd : Nat) (t' : St) (fp' : FlatObj)
       (a : TAction),
       (∀ f ∈ t.targetFds, f < t.nextFd) →
       translate_entry p t (.fdObj fd) = Except.ok (t', fp', a) →
       fp' = FlatObj.fdObj t.nextFd ∧ a = TAction.installFdAct t.nextFd ∧
       release_entry t' p.targetId true fp'
         = ({ t' with targetFds := t.targetFds }, some (invAction a))) ∧
    TOutcome.failIndex cookieMismatchRun = some 0 ∧
    TOutcome.errOf cookieMismatchRun = some none ∧
    (TOutcome.errsOf cookieMismatchRun 100).return_error = none := by
  refine ⟨?_, ?_, ?_, ?_, ?_, ?_⟩
  · exact fun p objs t t' k rews acts e h =>
      translateLoop_fail_facts p objs t t' k rews acts e h
  · exact fun s errs p stid irt objs s2 errs2 k rel racts e h =>
      transaction_failure_decomp s errs p stid irt objs s2 errs2 k rel racts
        e h
  · exact fun p t fd t' fp' a hfd h =>
      fd_translate_release p t fd t' fp' a hfd h
  · rfl
  · rfl
  · rfl

/-- Witness for C1: the fd-entry roundtrip at a concrete reply state, and
the length facts at a concrete failing one-entry loop. -/
theorem C1_failure_unwind_witness :
    (FlatObj.fdObj 2 = FlatObj.fdObj fdExampleState.nextFd ∧
     TAction.installFdAct 2 = TAction.installFdAct fdExampleState.nextFd ∧
     release_entry fdInstalledState fdExampleParams.targetId true
         (FlatObj.fdObj 2)
       = ({ fdInstalledState with targetFds := fdExampleState.targetFds },
          some (invAction (TAction.installFdAct 2)))) ∧
    (List.length ([] : List FlatObj) = 0 ∧
     List.length ([] : List TAction) = 0 ∧
     0 ≤ List.length cookieMismatchObjs) :=
  ⟨C1_failure_unwind.2.2.1 fdExampleParams fdExampleState 5 fdInstalledState
     (FlatObj.fdObj 2) (TAction.installFdAct 2) (by decide) rfl,
   C1_failure_unwind.1 cookieMismatchParams cookieMismatchObjs
     cookieMismatchState cookieMismatchState 0 [] [] none rfl⟩

end Trans

end Binder
